import Mathlib

/-!
# Verification of the MAEC SimpleAPI generic entity-mapping engine

Shallow embedding of `maec/__init__.py`: the `Entity` base class (generic
`to_obj` / `to_dict` / `from_obj` / `from_dict` / `__eq__` driven by a set
of `TypedField` descriptors), the `EntityList` typed collection with
per-element validation and coercion, and the recursive namespace walk used
by `to_xml`.

Python values are modelled by the inductive type `Value`; Python classes by
a class table `CTable` mapping class names to their descriptor sets (the
result of `Entity._get_vars`), their `EntityList` status, contained type and
binding variable, their ancestor list (for `isinstance`) and the namespaces
declared along their `__mro__`.

Recursive methods are embedded as fuel-indexed functions, structurally
recursive on the fuel: every recursive call runs at fuel `n` inside a body
matched at `n+1`, and running out of fuel is the distinguished outcome
`PErr.fuel` / `none` (matching the fact that the Python recursion can, on
pathological class tables, exhaust the interpreter stack).  On inputs whose
recursion terminates the result is independent of any sufficiently large
fuel.

Object identity (`is`) is modelled by a numeric object id carried by every
entity value; entities freshly allocated by the conversion functions carry
id `0`, and theorems about pre-existing entities assume their ids are
positive, so that a reconstructed entity is never `is`-identical to an
original one.
-/

namespace MaecSpec

/-- Python exceptions raised by the engine.  `fuel` models exhaustion of the
recursion budget (`RuntimeError: maximum recursion depth exceeded`). -/
inductive PErr where
  | typeError (msg : String)
  | valueError (msg : String)
  | attrError
  | fuel
deriving DecidableEq, Repr

/-- A `TypedField` descriptor as consumed by the engine:
internal slot name, binding-object key, dictionary key, declared nested type
(a class name, or `none` for primitives), `multiple` and `comparable`
flags.  (The descriptor itself is an external collaborator from `cybox`;
only the attributes read by this engine are modelled.) -/
structure TypedField where
  attr_name : String
  name : String
  key_name : String
  type_ : Option String
  multiple : Bool
  comparable : Bool
deriving DecidableEq, Repr

/-- Static data of one Entity subclass: the list returned by
`Entity._get_vars` (fixed at class-definition time), whether the class is an
`EntityList` subclass, its `_contained_type` and `_binding_var` (meaningful
for `EntityList` subclasses), all ancestor class names including itself
(`__mro__`, for `isinstance`), and the namespaces declared along the mro
(`[x._namespace for x in cls.__mro__ if hasattr(x, '_namespace')]`). -/
structure EClass where
  fields : List TypedField
  isEList : Bool
  containedType : String
  bindingVar : String
  ancestors : List String
  nsDecls : List String
deriving DecidableEq, Repr

/-- Class table: class name to class data. -/
abbrev CTable := List (String × EClass)

/-- Python runtime values, as far as the engine observes them.
`vent c oid flds inner` is an instance of class `c` with object id `oid`,
descriptor-field storage `flds` (the `_fields` dict behind the `TypedField`
descriptors) and, for `EntityList` instances, element list `inner`
(`self._inner`).  Binding objects are also represented as `vdict`
attribute bags keyed by the descriptors' binding `name`s. -/
inductive Value where
  | vnone
  | vbool (b : Bool)
  | vint (n : Int)
  | vstr (s : String)
  | vlist (xs : List Value)
  | vdict (kvs : List (String × Value))
  | vent (cname : String) (oid : Nat) (flds : List (String × Value)) (inner : List Value)
deriving Repr

namespace Value

/-- First-match association lookup (Python `dict.get`). -/
def lookupV (kvs : List (String × Value)) (k : String) : Option Value :=
  match kvs with
  | [] => none
  | (a, v) :: rest => if a = k then some v else lookupV rest k

/-- `getattr(entity, attr_name)` through a `TypedField` descriptor: reads
the storage slot, `None` when unset (`instance._fields.get(name)`). -/
def getattrD (kvs : List (String × Value)) (k : String) : Value :=
  (lookupV kvs k).getD .vnone

end Value

open Value

/-- Class lookup in the table. -/
def lookupC (t : CTable) (c : String) : Option EClass :=
  match t with
  | [] => none
  | (a, cl) :: rest => if a = c then some cl else lookupC rest c

/-- `Entity._get_vars` for a class name: its declared `TypedField` set
(empty when the class is unknown). -/
def getVars (t : CTable) (c : String) : List TypedField :=
  ((lookupC t c).map EClass.fields).getD []

/-- Whether a class name denotes an `EntityList` subclass. -/
def isEListCls (t : CTable) (c : String) : Bool :=
  ((lookupC t c).map EClass.isEList).getD false

/-- `_contained_type` of an `EntityList` class. -/
def containedOf (t : CTable) (c : String) : String :=
  ((lookupC t c).map EClass.containedType).getD ""

/-- `_binding_var` of an `EntityList` class. -/
def bindingVarOf (t : CTable) (c : String) : String :=
  ((lookupC t c).map EClass.bindingVar).getD ""

/-- Default `Entity.istypeof`, i.e. `isinstance(obj, cls)`: the value is an
entity whose class has `cls` among its ancestors.  Non-entity values never
satisfy it (contained types of `EntityList`s are Entity subclasses). -/
def istypeof (t : CTable) (cls : String) (v : Value) : Bool :=
  match v with
  | .vent c _ _ _ => ((lookupC t c).map (fun cl => cl.ancestors.contains cls)).getD false
  | _ => false

/-- Python truthiness of the modelled values: `None`, `False`, `0`, `''`,
`[]`, `{}` are falsy; an `EntityList` instance is falsy iff empty (it
defines `__len__`); any other entity is truthy. -/
def pyTruthy (t : CTable) (v : Value) : Bool :=
  match v with
  | .vnone => false
  | .vbool b => b
  | .vint n => n != 0
  | .vstr s => s != ""
  | .vlist xs => !xs.isEmpty
  | .vdict kvs => !kvs.isEmpty
  | .vent c _ _ inner => if isEListCls t c then !inner.isEmpty else true

/-- Python `val is None`. -/
def isVNone (v : Value) : Bool :=
  match v with
  | .vnone => true
  | _ => false

/-- A Python scalar among the modelled values (`None`, booleans, numbers,
strings). -/
def isScalar (v : Value) : Bool :=
  match v with
  | .vnone => true
  | .vbool _ => true
  | .vint _ => true
  | .vstr _ => true
  | _ => false

/-- Python `val == []` for the modelled values: only the empty list compares
equal to `[]` (an entity's `__eq__` rejects non-entities by class check, and
primitives, dicts and non-empty lists are `!= []`).  Used by `to_dict`'s
sparsity filter `val is not None and val != []`. -/
def eqEmptyList (v : Value) : Bool :=
  match v with
  | .vlist [] => true
  | _ => false

/-- Modelled rendering of a value under Python `'%s' % value` (`str`).
Container renderings are abbreviated; the theorems only use that the
rendering is embedded in error messages. -/
def pyStr (v : Value) : String :=
  match v with
  | .vnone => "None"
  | .vbool b => if b then "True" else "False"
  | .vint n => toString n
  | .vstr s => s
  | .vlist _ => "[...]"
  | .vdict _ => "\x7b...\x7d"
  | .vent c _ _ _ => "<" ++ c ++ " object>"

/-- Modelled rendering of `'%s' % type(value)`. -/
def pyTypeStr (v : Value) : String :=
  match v with
  | .vnone => "<type \x27NoneType\x27>"
  | .vbool _ => "<type \x27bool\x27>"
  | .vint _ => "<type \x27int\x27>"
  | .vstr _ => "<type \x27str\x27>"
  | .vlist _ => "<type \x27list\x27>"
  | .vdict _ => "<type \x27dict\x27>"
  | .vent c _ _ _ => "<class \x27maec." ++ c ++ "\x27>"

/-- Modelled rendering of `'%s' % cls` for a class. -/
def pyClsStr (c : String) : String :=
  "<class \x27maec." ++ c ++ "\x27>"

/-- The message of `EntityList._fix_value`'s
`ValueError("Can't put '%s' (%s) into a %s" % (value, type(value), self.__class__))`. -/
def fixValueMsg (v : Value) (listCls : String) : String :=
  "Can\x27t put \x27" ++ pyStr v ++ "\x27 (" ++ pyTypeStr v ++ ") into a " ++ pyClsStr listCls

/-- The message of `Entity.from_dict`'s
`TypeError("Could not instantiate a %s from a %s: %s" % (cls, type(value), value))`. -/
def fromDictWrapMsg (c : String) (v : Value) : String :=
  "Could not instantiate a " ++ pyClsStr c ++ " from a " ++ pyTypeStr v ++ ": " ++ pyStr v

/-- `EntityList._is_valid`: `self._contained_type.istypeof(value)` with the
default `istypeof` (subclass overrides are outside the engine). -/
def elIsValid (t : CTable) (listCls : String) (v : Value) : Bool :=
  istypeof t (containedOf t listCls) v

/-- A constructor table for concrete Entity subclasses: the behaviour of the
single-argument call `cls(value)` for non-`EntityList` classes.
Modelled from the spec: concrete schema classes (outside this engine) may
"provide a 'sane' constructor" accepting a scalar; the generic
`Entity.__init__(self)` itself takes no argument, so the default table
`defaultCtor` raises `TypeError` for every class. -/
abbrev Ctor := String → Value → Except PErr Value

/-- `cls(value)` for a class whose `__init__` is the generic zero-argument
`Entity.__init__`: a `TypeError` (wrong number of arguments). -/
def defaultCtor : Ctor := fun c _ =>
  .error (.typeError ("__init__() takes exactly 1 argument (2 given): " ++ c))

mutual

/-- The single-argument constructor call `cls(value)`.  For an `EntityList`
subclass this runs `EntityList.__init__(self, *args)` with `args = (value,)`:
a list argument is `extend`ed element by element, any other argument is
`append`ed, each going through `insert`'s validation/coercion; the new
instance has empty `_fields` and the accumulated `_inner`.  For any other
class the (external, possibly overridden) constructor from `ctor` runs. -/
def pyConstructF (t : CTable) (ctor : Ctor) : Nat → String → Value → Except PErr Value
  | 0, _, _ => .error .fuel
  | n + 1, c, v =>
    match lookupC t c with
    | none => .error (.typeError ("unknown class: " ++ c))
    | some cl =>
      if cl.isEList then
        match v with
        | .vlist xs => (elAddAllF t ctor n c xs).map (fun inner => .vent c 0 [] inner)
        | _ => (elCoerceF t ctor n c v).map (fun w => .vent c 0 [] [w])
      else ctor c v

/-- The validation/coercion every `EntityList` write path applies to a new
element: keep a value satisfying `_is_valid` unchanged, otherwise
`_fix_value` constructs `_contained_type(value)`; any construction failure
(the `try`/bare `except`) becomes
`ValueError("Can't put '%s' (%s) into a %s" ...)`. -/
def elCoerceF (t : CTable) (ctor : Ctor) : Nat → String → Value → Except PErr Value
  | 0, _, _ => .error .fuel
  | n + 1, listCls, v =>
    if elIsValid t listCls v then .ok v
    else
      match pyConstructF t ctor n (containedOf t listCls) v with
      | .ok w => .ok w
      | .error _ => .error (.valueError (fixValueMsg v listCls))

/-- `self.extend(arg)` inside `EntityList.__init__`: append each element in
order through the validation/coercion path. -/
def elAddAllF (t : CTable) (ctor : Ctor) : Nat → String → List Value → Except PErr (List Value)
  | 0, _, _ => .error .fuel
  | _ + 1, _, [] => .ok []
  | n + 1, listCls, x :: xs => do
    let w ← elCoerceF t ctor n listCls x
    let ws ← elAddAllF t ctor n listCls xs
    .ok (w :: ws)

end

/-- Python `list.insert` index clamping (insert past the end appends). -/
def pyInsertAt (xs : List Value) (idx : Nat) (v : Value) : List Value :=
  match xs, idx with
  | xs, 0 => v :: xs
  | [], _ + 1 => [v]
  | x :: xs, i + 1 => x :: pyInsertAt xs i v

/-- `EntityList.insert(idx, value)`: validate/coerce, then insert into
`_inner`; returns the new `_inner`. -/
def elInsertF (t : CTable) (ctor : Ctor) (fuel : Nat) (listCls : String)
    (inner : List Value) (idx : Nat) (v : Value) : Except PErr (List Value) :=
  (elCoerceF t ctor fuel listCls v).map (fun w => pyInsertAt inner idx w)

/-- `EntityList.__setitem__(key, value)` at a valid index: validate/coerce,
then overwrite the slot of `_inner`. -/
def elSetItemF (t : CTable) (ctor : Ctor) (fuel : Nat) (listCls : String)
    (inner : List Value) (idx : Nat) (v : Value) : Except PErr (List Value) :=
  (elCoerceF t ctor fuel listCls v).map (fun w => inner.set idx w)

/-- Python `==` on the modelled values, fuel-indexed (`none` = recursion
budget exhausted).  Entities compare by `Entity.__eq__`: identity first,
then exact class equality, then a non-empty `_get_vars` requirement, then
every `comparable` descriptor field (`getattr` on both sides compared with
the nested `==`).  Numbers compare across `bool`/`int` as in Python;
values of different shapes otherwise compare unequal (for an entity against
a non-entity, both the direct and the reflected `__eq__` fail the class
check). -/
def pyEqF (t : CTable) : Nat → Value → Value → Option Bool
  | 0, _, _ => none
  | n + 1, v₁, v₂ =>
    match v₁, v₂ with
    | .vent c₁ o₁ flds₁ _, .vent c₂ o₂ flds₂ _ =>
      if o₁ = o₂ then some true
      else if c₁ ≠ c₂ then some false
      else if (getVars t c₁).isEmpty then some false
      else do
          let rs ← (getVars t c₁).mapM (fun f =>
            if f.comparable then
              pyEqF t n (getattrD flds₁ f.attr_name) (getattrD flds₂ f.attr_name)
            else pure true)
          pure (rs.all id)
    | .vent _ _ _ _, _ => some false
    | _, .vent _ _ _ _ => some false
    | .vnone, .vnone => some true
    | .vbool b, .vbool c => some (b = c)
    | .vbool b, .vint m => some ((if b then (1 : Int) else 0) = m)
    | .vint m, .vbool b => some (m = (if b then (1 : Int) else 0))
    | .vint m, .vint k => some (m = k)
    | .vstr s, .vstr u => some (s = u)
    | .vlist xs, .vlist ys =>
      if xs.length ≠ ys.length then some false
      else do
        let rs ← (xs.zip ys).mapM (fun p => pyEqF t n p.1 p.2)
        pure (rs.all id)
    | .vdict ks, .vdict ls =>
      if ks.length ≠ ls.length then some false
      else do
        let rs ← ks.mapM (fun kv =>
          match lookupV ls kv.1 with
          | some w => pyEqF t n kv.2 w
          | none => pure false)
        pure (rs.all id)
    | _, _ => some false

/-- Iterating `val` in `[x.to_dict() for x in val]` / `[x.to_obj() for x in val]`:
a Python list yields its elements, an `EntityList` instance yields `_inner`;
anything else either is not iterable or yields items without the method. -/
def iterElems (t : CTable) (v : Value) : Except PErr (List Value) :=
  match v with
  | .vlist xs => .ok xs
  | .vent c _ _ inner => if isEListCls t c then .ok inner else .error (.typeError "not iterable")
  | _ => .error (.typeError "not iterable")

/-- The per-field value conversion of `Entity.to_dict` (before the sparsity
filter): a `multiple` field maps `to_dict` over its elements when truthy and
becomes `[]` otherwise; a nested `Entity` converts recursively; anything
else passes through.  `rec` is the recursive `to_dict` at the next fuel. -/
def toDictFieldVal (t : CTable) (rec : Value → Except PErr Value)
    (flds : List (String × Value)) (f : TypedField) : Except PErr Value :=
  let val := getattrD flds f.attr_name
  if f.multiple then
    if pyTruthy t val then do
      let xs ← iterElems t val
      let ds ← xs.mapM rec
      .ok (.vlist ds)
    else .ok (.vlist [])
  else
    match val with
    | .vent _ _ _ _ => rec val
    | _ => .ok val

/-- `Entity.to_dict` / `EntityList.to_dict` (= `to_list`).  For an
`EntityList` instance: `[h.to_dict() for h in self]`.  Otherwise: one
candidate entry per descriptor, keyed by `key_name`, keeping only entries
whose converted value `is not None and != []` (the `_finalize_dict` hook is
the default no-op).  Calling `to_dict` on a non-entity is the
`AttributeError` a missing method raises. -/
def toDictF (t : CTable) : Nat → Value → Except PErr Value
  | 0, _ => .error .fuel
  | n + 1, .vent c _ flds inner =>
    match lookupC t c with
    | none => .error (.typeError ("unknown class: " ++ c))
    | some cl =>
      if cl.isEList then do
        let ds ← inner.mapM (toDictF t n)
        .ok (.vlist ds)
      else do
        let kvs ← cl.fields.mapM (fun f => do
          let v' ← toDictFieldVal t (toDictF t n) flds f
          pure (f.key_name, v'))
        .ok (.vdict (kvs.filter (fun kv => !isVNone kv.2 && !eqEmptyList kv.2)))
  | _ + 1, _ => .error .attrError

/-- The per-field value conversion of `Entity.to_obj`: like `to_dict`'s but
with no sparsity filter (the binding attribute is always set). -/
def toObjFieldVal (t : CTable) (rec : Value → Except PErr Value)
    (flds : List (String × Value)) (f : TypedField) : Except PErr Value :=
  let val := getattrD flds f.attr_name
  if f.multiple then
    if pyTruthy t val then do
      let xs ← iterElems t val
      let ds ← xs.mapM rec
      .ok (.vlist ds)
    else .ok (.vlist [])
  else
    match val with
    | .vent _ _ _ _ => rec val
    | _ => .ok val

/-- `Entity.to_obj` / `EntityList.to_obj`.  Binding objects are modelled as
attribute bags (`vdict`).  An `EntityList` sets its `_binding_var` attribute
to `[x.to_obj() for x in self]`; an `Entity` sets one attribute per
descriptor under the descriptor's binding `name` (`_finalize_obj` is the
default no-op).  Calling `to_obj` on a non-entity (in particular `None`) is
an `AttributeError`. -/
def toObjF (t : CTable) : Nat → Value → Except PErr Value
  | 0, _ => .error .fuel
  | n + 1, .vent c _ flds inner =>
    match lookupC t c with
    | none => .error (.typeError ("unknown class: " ++ c))
    | some cl =>
      if cl.isEList then do
        let ds ← inner.mapM (toObjF t n)
        .ok (.vdict [(cl.bindingVar, .vlist ds)])
      else do
        let kvs ← cl.fields.mapM (fun f => do
          let v' ← toObjFieldVal t (toObjF t n) flds f
          pure (f.name, v'))
        .ok (.vdict kvs)
  | _ + 1, _ => .error .attrError

/-- `EntityList.from_list` (class `listCls`): `None` (detected via
`isinstance(list_list, list)` failing) unless given a genuine list;
otherwise a fresh instance appending `_contained_type.from_dict(item)` for
each item — where `append` goes through `insert`'s validation/coercion.
`recFD` is `from_dict` of the contained type and `coerce` the write-path
validation, both at the current fuel. -/
def fromListWith (t : CTable) (recFD : String → Value → Except PErr Value)
    (coerce : String → Value → Except PErr Value) (listCls : String) (v : Value) :
    Except PErr Value :=
  match v with
  | .vlist xs => do
    let inner ← xs.mapM (fun item => do
      let e ← recFD (containedOf t listCls) item
      coerce listCls e)
    .ok (.vent listCls 0 [] inner)
  | _ => .ok .vnone

/-- The per-field reconstruction of `Entity.from_dict` on a mapping:
`val = cls_dict.get(key_name)`; a declared `EntityList` type dispatches
through `from_list`; a declared type with `multiple` rebuilds each element
through `from_dict` (`[]` when the key is absent); a declared scalar type
rebuilds through `from_dict`; an undeclared type passes the raw value
through, except that an absent/falsy `multiple` value becomes `[]`. -/
def fromDictFieldVal (t : CTable) (recFD : String → Value → Except PErr Value)
    (coerce : String → Value → Except PErr Value)
    (kvs : List (String × Value)) (f : TypedField) : Except PErr Value :=
  let val := (lookupV kvs f.key_name).getD .vnone
  match f.type_ with
  | some ty =>
    if isEListCls t ty then fromListWith t recFD coerce ty val
    else if f.multiple then
      match val with
      | .vnone => .ok (.vlist [])
      | .vlist xs => do
        let es ← xs.mapM (recFD ty)
        .ok (.vlist es)
      | _ => .error (.typeError "not iterable")
    else recFD ty val
  | none =>
    if f.multiple && !pyTruthy t val then .ok (.vlist [])
    else .ok val

/-- `Entity.from_dict`.  `None` input returns `None`; a non-mapping input is
the scalar shortcut `cls(value)` — only a `TypeError` from the constructor
is caught and wrapped into
`TypeError("Could not instantiate a %s from a %s: %s")`, any other failure
propagates; a mapping allocates a fresh instance (fresh ids are modelled as
`0`) and fills each descriptor slot from the mapping. -/
def fromDictF (t : CTable) (ctor : Ctor) : Nat → String → Value → Except PErr Value
  | 0, _, _ => .error .fuel
  | n + 1, c, v =>
    match v with
    | .vnone => .ok .vnone
    | .vdict kvs =>
      match lookupC t c with
      | none => .error (.typeError ("unknown class: " ++ c))
      | some cl => do
        let flds ← cl.fields.mapM (fun f => do
          let v' ← fromDictFieldVal t (fromDictF t ctor n) (elCoerceF t ctor n) kvs f
          pure (f.attr_name, v'))
        .ok (.vent c 0 flds [])
    | _ =>
      match pyConstructF t ctor n c v with
      | .ok w => .ok w
      | .error (.typeError _) => .error (.typeError (fromDictWrapMsg c v))
      | .error e => .error e

/-- `EntityList.from_obj`: `None` on falsy input; otherwise a fresh instance
appending `_contained_type.from_obj(item)` for each item of the binding
collection's `_binding_var` attribute (each append validated/coerced). -/
def elFromObjWith (t : CTable) (recFO : String → Value → Except PErr Value)
    (coerce : String → Value → Except PErr Value) (listCls : String) (lobj : Value) :
    Except PErr Value :=
  if !pyTruthy t lobj then .ok .vnone
  else do
    let raw ←
      match lobj with
      | .vdict kvs => Except.ok (getattrD kvs (bindingVarOf t listCls))
      | _ => Except.error .attrError
    let items ← match raw with
      | .vlist xs => Except.ok xs
      | _ => Except.error (.typeError "not iterable")
    let inner ← items.mapM (fun item => do
      let e ← recFO (containedOf t listCls) item
      coerce listCls e)
    .ok (.vent listCls 0 [] inner)

/-- The per-field reconstruction of `Entity.from_obj`:
`val = getattr(cls_obj, field.name)`; a declared type with `multiple` and a
non-`None` value rebuilds each element through `from_obj`, any other
declared type rebuilds the value through `from_obj` (dispatching to
`EntityList.from_obj` for list classes); an undeclared type passes the raw
value through. -/
def fromObjFieldVal (recFO : String → Value → Except PErr Value)
    (bflds : List (String × Value)) (f : TypedField) : Except PErr Value :=
  let val := getattrD bflds f.name
  match f.type_ with
  | some ty =>
    if f.multiple && !isVNone val then
      match val with
      | .vlist xs => do
        let es ← xs.mapM (recFO ty)
        .ok (.vlist es)
      | _ => .error (.typeError "not iterable")
    else recFO ty val
  | none => .ok val

/-- `Entity.from_obj` / `EntityList.from_obj` (dispatch on the class):
falsy input (`if not cls_obj`) returns `None`; otherwise a fresh instance
filled per descriptor from the binding object's attributes. -/
def fromObjF (t : CTable) (ctor : Ctor) : Nat → String → Value → Except PErr Value
  | 0, _, _ => .error .fuel
  | n + 1, c, bobj =>
    match lookupC t c with
    | none => .error (.typeError ("unknown class: " ++ c))
    | some cl =>
      if cl.isEList then
        elFromObjWith t (fromObjF t ctor n) (elCoerceF t ctor n) c bobj
      else if !pyTruthy t bobj then .ok .vnone
      else
        match bobj with
        | .vdict bflds => do
          let flds ← cl.fields.mapM (fun f => do
            let v' ← fromObjFieldVal (fromObjF t ctor n) bflds f
            pure (f.attr_name, v'))
          .ok (.vent c 0 flds [])
        | _ => .error .attrError

/-- `EntityList.from_list` as a standalone classmethod (used by
`object_from_list` and the `from_dict` field dispatch). -/
def fromListF (t : CTable) (ctor : Ctor) (fuel : Nat) (listCls : String) (v : Value) :
    Except PErr Value :=
  fromListWith t (fromDictF t ctor fuel) (elCoerceF t ctor fuel) listCls v

/-- `EntityList.object_from_list`: `cls.from_list(entitylist_list).to_obj()`
— the `to_obj` attribute access on a `None` result is unguarded. -/
def objectFromListF (t : CTable) (ctor : Ctor) (fuel : Nat) (listCls : String) (v : Value) :
    Except PErr Value := do
  let l ← fromListF t ctor fuel listCls v
  toObjF t fuel l

/-- `EntityList.list_from_object`: `cls.from_obj(entitylist_obj).to_list()`
— the `to_list` attribute access on a `None` result is unguarded
(`to_list` is the same function as `to_dict`). -/
def listFromObjectF (t : CTable) (ctor : Ctor) (fuel : Nat) (listCls : String) (lobj : Value) :
    Except PErr Value := do
  let l ← fromObjF t ctor fuel listCls lobj
  toDictF t fuel l

/-! ## Namespace aggregation

`_get_namespaces` walks the object *graph*, whose nodes carry mutable
`touched` markers, so it is modelled over a heap of objects addressed by
object id; an object's `_get_children` result is abstracted to the list of
ids of the entity-valued attributes and entity list elements it holds.  The
transient marker discipline (set `self.touched`, recurse only into unmarked
children, `del self.touched` afterwards) makes the set of marked objects
exactly the current recursion path, so it is modelled by threading the path
as a list of ids. -/

/-- A `cybox.utils.Namespace` value object (an external namedtuple with
`name` (URI), `prefix` and optional `schema_location`). -/
structure NS where
  name : String
  prefix_ : String
  schemaLocation : Option String
deriving DecidableEq, Repr

/-- The namespace registry consumed by the walk: `maecMETA.lookup_namespace`
resolving a declared namespace URI to its `Namespace` object, and the
registry entries returned by `maecMETA.lookup_prefix('xsi')` and
`maecMETA.lookup_prefix('maecVocabs')`. -/
structure Meta where
  lookupNamespace : String → NS
  xsi : NS
  vocabs : NS

/-- A heap node: its runtime class and the ids yielded by `_get_children`. -/
structure HObj where
  cls : String
  children : List Nat
deriving DecidableEq, Repr

/-- The object heap. -/
abbrev Heap := List (Nat × HObj)

/-- Heap lookup by object id. -/
def lookupH (h : Heap) (oid : Nat) : Option HObj :=
  match h with
  | [] => none
  | (a, o) :: rest => if a = oid then some o else lookupH rest oid

/-- Python-set insertion (dedup by value, as for namedtuples). -/
def nsInsert (s : List NS) (x : NS) : List NS :=
  if x ∈ s then s else x :: s

/-- `set.update`: insert every element of `xs`. -/
def nsUnionL (s : List NS) (xs : List NS) : List NS :=
  xs.foldl nsInsert s

mutual

/-- `Entity._get_namespaces`, fuel-indexed (`none` = recursion budget
exhausted): start from the namespaces declared along the object's class
mro resolved through the registry, mark the object, union in the walk of
every unmarked child, unmark.  The walk of one child list threads the
accumulated set left to right. -/
def getNSF (t : CTable) (meta : Meta) (h : Heap) :
    Nat → List Nat → Nat → Option (List NS)
  | 0, _, _ => none
  | n + 1, touched, oid =>
    match lookupH h oid with
    | none => none
    | some o =>
      match lookupC t o.cls with
      | none => none
      | some cl =>
        let own := nsUnionL [] (cl.nsDecls.map meta.lookupNamespace)
        let touched' := oid :: touched
        getNSChildrenF t meta h n touched' o.children own

/-- The `for x in self._get_children(): if not hasattr(x, 'touched'): ...`
loop: skip marked children, union the recursive walk of the others. -/
def getNSChildrenF (t : CTable) (meta : Meta) (h : Heap) :
    Nat → List Nat → List Nat → List NS → Option (List NS)
  | 0, _, _, _ => none
  | _ + 1, _, [], acc => some acc
  | n + 1, touched, c :: cs, acc =>
    if c ∈ touched then getNSChildrenF t meta h n touched cs acc
    else do
      let s ← getNSF t meta h n touched c
      getNSChildrenF t meta h n touched cs (nsUnionL acc s)

end

/-- `str.join`: `sep.join(parts)`. -/
def pyJoin (sep : String) : List String → String
  | [] => ""
  | [x] => x
  | x :: xs => x ++ sep ++ pyJoin sep xs

/-- One `xmlns:{prefix}="{name}"` entry. -/
def xmlnsEntry (x : NS) : String :=
  "xmlns:" ++ x.prefix_ ++ "=\"" ++ x.name ++ "\""

/-- `get_xmlns_string`: the entries joined with `"\n\t"` (every `Namespace`
object is truthy, so the `if x` filter keeps all of them). -/
def getXmlnsString (nsSet : List NS) : String :=
  pyJoin "\n\t" (nsSet.map xmlnsEntry)

/-- One `{name} {schema_location}` entry. -/
def schemalocEntry (x : NS) : String :=
  x.name ++ " " ++ (x.schemaLocation.getD "")

/-- `get_schemaloc_string`: entries for the namespaces that carry a
schema location, joined with spaces. -/
def getSchemalocString (nsSet : List NS) : String :=
  pyJoin " " ((nsSet.filter (fun x => x.schemaLocation.isSome)).map schemalocEntry)

/-- Modelled rendering of `str(namespace)` (the namedtuple repr), the key
under which `_get_namespace_def` sorts the collected set. -/
def nsSortKey (x : NS) : String :=
  "Namespace(name=\x27" ++ x.name ++ "\x27, prefix=\x27" ++ x.prefix_ ++ "\x27, schema_location=" ++
    (match x.schemaLocation with
     | some l => "\x27" ++ l ++ "\x27"
     | none => "None") ++ ")"

/-- Insertion sort by `nsSortKey` (a stable model of `sorted(..., key=str)`;
the theorems only use that it permutes membership). -/
def nsSortInsert (x : NS) : List NS → List NS
  | [] => [x]
  | y :: ys => if nsSortKey x ≤ nsSortKey y then x :: y :: ys else y :: nsSortInsert x ys

/-- `sorted(namespaces, key=str)`. -/
def nsSort : List NS → List NS
  | [] => []
  | x :: xs => nsSortInsert x (nsSort xs)

/-- The `if namespaces:` step of `Entity._get_namespace_def`: when the walk
found anything, `update` with the `xsi` and `maecVocabs` registry
entries. -/
def nsDefBase (meta : Meta) (nss : List NS) : List NS :=
  if !nss.isEmpty then nsUnionL (nsUnionL nss [meta.xsi]) [meta.vocabs] else nss

/-- The namespace set assembled by `Entity._get_namespace_def` from the
walk result `nss` and the caller's `additional_ns_dict` (a URI → prefix
mapping): after the base step, add `Namespace(ns, prefix)` for every
additional pair whose URI is not already among the collected names (the
source computes `namespace_list` once before the loop; `nsDefBase` is pure,
so repeating it is equivalent). -/
def nsDefSet (meta : Meta) (nss : List NS) (add : List (String × String)) : List NS :=
  if !(nsDefBase meta nss).isEmpty && !add.isEmpty then
    add.foldl (fun s p => if p.1 ∈ (nsDefBase meta nss).map NS.name then s
      else nsUnionL s [⟨p.1, p.2, none⟩]) (nsDefBase meta nss)
  else nsDefBase meta nss

/-- `Entity._get_namespace_def`: empty string when no namespace was
collected, otherwise the sorted `xmlns` block followed by the
`xsi:schemaLocation` attribute. -/
def nsDefString (meta : Meta) (nss : List NS) (add : List (String × String)) : String :=
  if (nsDefSet meta nss add).isEmpty then ""
  else
    "\n\t" ++ getXmlnsString (nsSort (nsDefSet meta nss add)) ++
      "\n\txsi:schemaLocation=\"" ++
      getSchemalocString (nsSort (nsDefSet meta nss add)) ++ "\""

/-! ## Round-trip safety

`from_dict(e.to_dict()) == e` fails in general (see the counterexample for
claim C1); `rtOKF` is the sufficient condition under which it holds.  It is
fuel-indexed like the conversion functions and rules out exactly the shapes
the counterexamples exhibit: a `None`-valued `multiple` field (rebuilt as
`[]`), a non-`None` `EntityList`-valued field (a rebuilt `EntityList` is
never equal to the original, its class declaring no descriptors), untyped
`multiple` fields holding anything but `[]` (their elements have no
`to_dict`, and `None` rebuilds as `[]`), untyped fields holding non-scalar
values, typed fields holding values of a different class, classes without
descriptors, and duplicate key/attribute names. -/

/-- The runtime class of an entity value. -/
def clsOf : Value → String
  | .vent c _ _ _ => c
  | _ => ""

/-- Safety of one element of a `multiple` field declared with type `ty`:
an entity of exactly that class, itself round-trip safe. -/
def rtElemOK (ty : String) (rec : Value → Bool) (x : Value) : Bool :=
  match x with
  | .vent c _ _ _ => c == ty && rec x
  | _ => false

/-- Safety of one descriptor field's stored value (see `rtOKF`). -/
def rtOKFieldWith (t : CTable) (rec : Value → Bool) (v : Value) (f : TypedField) : Bool :=
  match f.type_ with
  | some ty =>
    if isEListCls t ty then !f.multiple && isVNone v
    else if f.multiple then
      match v with
      | .vlist xs => xs.all (rtElemOK ty rec)
      | _ => false
    else
      match v with
      | .vnone => true
      | .vent c _ _ _ => c == ty && rec v
      | _ => false
  | none =>
    if f.multiple then eqEmptyList v
    else isScalar v

/-- Round-trip safety of an entity value (fuel-indexed): a known,
non-`EntityList` class with a non-empty descriptor set, no duplicate
dictionary keys or attribute slots, a positive object id (a pre-existing
object, never `is`-identical to a reconstruction), and every descriptor
field safe. -/
def rtOKF (t : CTable) : Nat → Value → Bool
  | 0, _ => false
  | n + 1, .vent c o flds _ =>
    match lookupC t c with
    | none => false
    | some cl =>
      !cl.isEList && (o != 0) && !cl.fields.isEmpty &&
      decide (cl.fields.map TypedField.key_name).Nodup &&
      decide (cl.fields.map TypedField.attr_name).Nodup &&
      cl.fields.all (fun f => rtOKFieldWith t (rtOKF t n) (getattrD flds f.attr_name) f)
  | _ + 1, _ => false

/-! ## Generic lemmas about the monadic list combinators -/

section MapMLemmas

variable {α β : Type}

theorem exceptMapM_ok_of_forall (g : α → Except PErr β) (gf : α → β) :
    ∀ (l : List α), (∀ a ∈ l, g a = .ok (gf a)) → l.mapM g = .ok (l.map gf) := by
  intro l
  induction l with
  | nil => intro _; rw [List.mapM_nil]; rfl
  | cons x xs ih =>
    intro h
    have hx := h x (by simp)
    have hxs := ih (fun a ha => h a (by simp [ha]))
    rw [List.mapM_cons, hx, hxs]
    rfl

/-- Inversion: an `Except`-valued `mapM` succeeding means every element
succeeded. -/
theorem exceptMapM_forall_of_ok (g : α → Except PErr β) :
    ∀ (l : List α) (bs : List β), l.mapM g = .ok bs → ∀ a ∈ l, ∃ b, g a = .ok b := by
  intro l
  induction l with
  | nil => intro bs _ a ha; simp at ha
  | cons x xs ih =>
    intro bs h a ha
    rw [List.mapM_cons] at h
    cases hx : g x with
    | error e => rw [hx] at h; exact absurd h (by simp [Bind.bind, Except.bind])
    | ok b =>
      rw [hx] at h
      cases hxs : xs.mapM g with
      | error e => rw [hxs] at h; exact absurd h (by simp [Bind.bind, Except.bind])
      | ok bs' =>
        rcases List.mem_cons.mp ha with rfl | ha
        · exact ⟨b, hx⟩
        · exact ih bs' hxs a ha

theorem optMapM_eq_some_trues (g : α → Option Bool) :
    ∀ (l : List α), (∀ a ∈ l, g a = some true) →
      (do
        let rs ← l.mapM g
        pure (rs.all id)) = some true := by
  intro l
  induction l with
  | nil => intro _; rw [List.mapM_nil]; rfl
  | cons x xs ih =>
    intro h
    have hx := h x (by simp)
    have hxs := ih (fun a ha => h a (by simp [ha]))
    rw [List.mapM_cons, hx]
    cases hmm : xs.mapM g with
    | none => rw [hmm] at hxs; simp at hxs
    | some rs =>
      rw [hmm] at hxs
      simp only [Option.bind_eq_bind, Option.some_bind, Option.pure_def,
        Option.some.injEq] at hxs ⊢
      simp [hxs]

theorem optMapM_forall_of_some_true (g : α → Option Bool) :
    ∀ (l : List α),
      (do
        let rs ← l.mapM g
        pure (rs.all id)) = some true →
      ∀ a ∈ l, g a = some true := by
  intro l
  induction l with
  | nil => intro _ a ha; simp at ha
  | cons x xs ih =>
    intro h a ha
    rw [List.mapM_cons] at h
    cases hx : g x with
    | none => rw [hx] at h; simp at h
    | some b =>
      rw [hx] at h
      cases hmm : xs.mapM g with
      | none => rw [hmm] at h; simp at h
      | some rs =>
        rw [hmm] at h
        simp only [Option.bind_eq_bind, Option.some_bind, Option.pure_def,
          Option.some.injEq, List.all_cons, Bool.and_eq_true, id_eq] at h
        rcases List.mem_cons.mp ha with rfl | ha
        · rw [hx, h.1]
        · refine ih ?_ a ha
          rw [hmm]
          simp [h.2]

theorem optMapM_mono {α : Type} (g g' : α → Option Bool)
    (hgg : ∀ a r, g a = some r → g' a = some r) :
    ∀ (l : List α) (rs : List Bool), l.mapM g = some rs → l.mapM g' = some rs := by
  intro l
  induction l with
  | nil => intro rs h; rwa [List.mapM_nil] at h ⊢
  | cons x xs ih =>
    intro rs h
    rw [List.mapM_cons] at h ⊢
    cases hx : g x with
    | none => rw [hx] at h; simp at h
    | some b =>
      rw [hx] at h
      cases hxs : xs.mapM g with
      | none => rw [hxs] at h; simp at h
      | some bs =>
        rw [hxs] at h
        rw [hgg x b hx, ih bs hxs]
        exact h

end MapMLemmas

/-- Fuel monotonicity of the modelled Python `==`: a result obtained at some
fuel persists at every larger fuel. -/
theorem pyEqF_mono (t : CTable) :
    ∀ n m v w r, n ≤ m → pyEqF t n v w = some r → pyEqF t m v w = some r := by
  intro n
  induction n with
  | zero => intro m v w r _ h; simp [pyEqF] at h
  | succ n ih =>
    intro m v w r hnm h
    obtain ⟨m', rfl⟩ : ∃ m', m = m' + 1 := ⟨m - 1, by omega⟩
    have hnm' : n ≤ m' := by omega
    cases v <;> cases w <;> simp only [pyEqF] at h ⊢ <;> try exact h
    case vlist.vlist xs ys =>
      by_cases hl : xs.length = ys.length
      · rw [if_neg (not_not_intro hl)] at h ⊢
        cases hmm : (xs.zip ys).mapM (fun p => pyEqF t n p.1 p.2) with
        | none => rw [hmm] at h; simp at h
        | some rs =>
          rw [hmm] at h
          rw [optMapM_mono _ _ (fun p r hp => ih m' p.1 p.2 r hnm' hp) _ rs hmm]
          exact h
      · rw [if_pos hl] at h ⊢
        exact h
    case vdict.vdict ks ls =>
      by_cases hl : ks.length = ls.length
      · rw [if_neg (not_not_intro hl)] at h ⊢
        cases hmm : ks.mapM (fun (kv : String × Value) =>
            match lookupV ls kv.1 with
            | some w => pyEqF t n kv.2 w
            | none => pure false) with
        | none => rw [hmm] at h; simp at h
        | some rs =>
          rw [hmm] at h
          have hmm2 : ks.mapM (fun (kv : String × Value) =>
              match lookupV ls kv.1 with
              | some w => pyEqF t m' kv.2 w
              | none => pure false) = some rs := by
            refine optMapM_mono _ _ ?_ ks rs hmm
            intro kv r hkv
            cases hlk : lookupV ls kv.1 with
            | some w =>
              simp only [hlk] at hkv ⊢
              exact ih m' kv.2 w r hnm' hkv
            | none => simp only [hlk] at hkv ⊢; exact hkv
          rw [hmm2]
          exact h
      · rw [if_pos hl] at h ⊢
        exact h
    case vent.vent c₁ o₁ flds₁ i₁ c₂ o₂ flds₂ i₂ =>
      by_cases ho : o₁ = o₂
      · rw [if_pos ho] at h ⊢; exact h
      · rw [if_neg ho] at h ⊢
        by_cases hc : c₁ ≠ c₂
        · rw [if_pos hc] at h ⊢; exact h
        · rw [if_neg hc] at h ⊢
          by_cases hv : (getVars t c₁).isEmpty
          · rw [if_pos hv] at h ⊢; exact h
          · rw [if_neg hv] at h ⊢
            cases hmm : (getVars t c₁).mapM (fun f =>
                if f.comparable then
                  pyEqF t n (getattrD flds₁ f.attr_name) (getattrD flds₂ f.attr_name)
                else pure true) with
            | none => rw [hmm] at h; simp at h
            | some rs =>
              rw [hmm] at h
              have hmm2 : (getVars t c₁).mapM (fun f =>
                  if f.comparable then
                    pyEqF t m' (getattrD flds₁ f.attr_name) (getattrD flds₂ f.attr_name)
                  else pure true) = some rs := by
                refine optMapM_mono _ _ ?_ _ rs hmm
                intro f r hf
                by_cases hcmp : f.comparable
                · simp only [hcmp, if_true] at hf ⊢
                  exact ih m' _ _ r hnm' hf
                · simp only [hcmp, Bool.false_eq_true, if_false] at hf ⊢; exact hf
              rw [hmm2]
              exact h

/-- A list of pairwise `==`-facts, each at its own fuel, holds uniformly at
a common fuel. -/
theorem pyEqF_uniform (t : CTable) :
    ∀ (ps : List (Value × Value)),
      (∀ p ∈ ps, ∃ m, pyEqF t m p.1 p.2 = some true) →
      ∃ M, ∀ p ∈ ps, pyEqF t M p.1 p.2 = some true := by
  intro ps
  induction ps with
  | nil => intro _; exact ⟨1, by simp⟩
  | cons q qs ih =>
    intro h
    obtain ⟨m₀, hm₀⟩ := h q (by simp)
    obtain ⟨M, hM⟩ := ih (fun p hp => h p (by simp [hp]))
    refine ⟨max m₀ M, ?_⟩
    intro p hp
    rcases List.mem_cons.mp hp with rfl | hp
    · exact pyEqF_mono t m₀ _ p.1 p.2 true (Nat.le_max_left _ _) hm₀
    · exact pyEqF_mono t M _ p.1 p.2 true (Nat.le_max_right _ _) (hM p hp)

/-- Reflexivity of the modelled `==` on scalars, at any positive fuel. -/
theorem pyEqF_scalar_refl (t : CTable) (v : Value) (hv : isScalar v = true) (m : Nat) :
    pyEqF t (m + 1) v v = some true := by
  cases v <;> simp_all [isScalar, pyEqF]

@[simp] theorem except_ok_bind {α β : Type} (a : α) (f : α → Except PErr β) :
    (Except.ok a : Except PErr α) >>= f = f a := rfl

@[simp] theorem except_error_bind {α β : Type} (e : PErr) (f : α → Except PErr β) :
    (Except.error e : Except PErr α) >>= f = .error e := rfl

theorem lookupV_eq_none_of_not_mem (k : String) :
    ∀ (l : List (String × Value)), k ∉ l.map Prod.fst → lookupV l k = none := by
  intro l
  induction l with
  | nil => intro _; rfl
  | cons p rest ih =>
    intro h
    obtain ⟨a, v⟩ := p
    simp only [List.map_cons, List.mem_cons, not_or] at h
    simp only [lookupV, if_neg (fun hh : a = k => h.1 hh.symm)]
    exact ih h.2

theorem map_fst_filter_subset {α β : Type} (p : α × β → Bool) (l : List (α × β)) :
    ∀ k, k ∈ (l.filter p).map Prod.fst → k ∈ l.map Prod.fst := by
  intro k hk
  obtain ⟨q, hq, rfl⟩ := List.mem_map.mp hk
  exact List.mem_map.mpr ⟨q, List.mem_of_mem_filter hq, rfl⟩

theorem isVNone_eq_true_iff (v : Value) : isVNone v = true ↔ v = .vnone := by
  cases v <;> simp [isVNone]

theorem eqEmptyList_eq_true_iff (v : Value) : eqEmptyList v = true ↔ v = .vlist [] := by
  cases v with
  | vlist xs => cases xs <;> simp [eqEmptyList]
  | _ => simp [eqEmptyList]

theorem eqEmptyList_scalar (v : Value) (hv : isScalar v = true) : eqEmptyList v = false := by
  cases v <;> simp_all [isScalar, eqEmptyList]

/-- The induction hypothesis of the round-trip proof: every entity safe at
fuel `n` dictifies at fuel `n`, reconstructs at fuel `n + 1`, and the
reconstruction compares `==` at some fuel. -/
def RTIH (t : CTable) (ctor : Ctor) (n : Nat) : Prop :=
  ∀ v, rtOKF t n v = true →
    ∃ dkvs e', toDictF t n v = .ok (.vdict dkvs) ∧
      fromDictF t ctor (n + 1) (clsOf v) (.vdict dkvs) = .ok e' ∧
      ∃ m, pyEqF t m e' v = some true

/-- Round trip of the elements of a `multiple` field declared with type
`ty`: dictifying then rebuilding through `ty.from_dict` preserves length
and yields pairwise-`==` elements. -/
theorem rtElems (t : CTable) (ctor : Ctor) (n : Nat) (IH : RTIH t ctor n) :
    ∀ (xs : List Value) (ty : String),
      (∀ x ∈ xs, rtElemOK ty (rtOKF t n) x = true) →
      ∃ ds es, xs.mapM (toDictF t n) = .ok ds ∧
        ds.mapM (fromDictF t ctor (n + 1) ty) = .ok es ∧
        ds.length = xs.length ∧ es.length = xs.length ∧
        ∃ M, ∀ p ∈ es.zip xs, pyEqF t M p.1 p.2 = some true := by
  intro xs
  induction xs with
  | nil =>
    intro ty _
    refine ⟨[], [], ?_, ?_, rfl, rfl, ⟨1, by simp⟩⟩ <;> rw [List.mapM_nil] <;> rfl
  | cons x xs ihl =>
    intro ty hall
    have hx := hall x (by simp)
    obtain ⟨c', o', f', i', rfl⟩ : ∃ c' o' f' i', x = .vent c' o' f' i' := by
      cases x <;> simp [rtElemOK] at hx ⊢
    rw [rtElemOK, Bool.and_eq_true, beq_iff_eq] at hx
    obtain ⟨hceq, hok⟩ := hx
    obtain ⟨dkvs, e', hto, hfrom, m, heq⟩ := IH _ hok
    obtain ⟨ds, es, hds, hes, hlds, hles, M, hM⟩ :=
      ihl ty (fun a ha => hall a (by simp [ha]))
    refine ⟨.vdict dkvs :: ds, e' :: es, ?_, ?_, by simp [hlds], by simp [hles], ?_⟩
    · rw [List.mapM_cons, hto, hds]; rfl
    · rw [List.mapM_cons]
      simp only [clsOf] at hfrom
      rw [hceq] at hfrom
      rw [hfrom, hes]; rfl
    · refine ⟨max m M, ?_⟩
      intro p hp
      rcases List.mem_cons.mp (by simpa using hp) with hp' | hp'
      · have hpe : p = (e', .vent c' o' f' i') := hp'
        rw [hpe]
        exact pyEqF_mono t m _ _ _ true (Nat.le_max_left _ _) heq
      · exact pyEqF_mono t M _ p.1 p.2 true (Nat.le_max_right _ _) (hM p hp')

/-- Round trip of one descriptor field: the `to_dict` conversion succeeds,
and against any mapping that looks the field's key up to exactly the stored
(post-filter) value, the `from_dict` reconstruction yields a value `==` to
the original field value. -/
theorem rtField (t : CTable) (ctor : Ctor) (n : Nat) (IH : RTIH t ctor n)
    (flds : List (String × Value)) (f : TypedField)
    (hf : rtOKFieldWith t (rtOKF t n) (getattrD flds f.attr_name) f = true) :
    ∃ dv rv, toDictFieldVal t (toDictF t n) flds f = .ok dv ∧
      (∀ kvs2 : List (String × Value),
        lookupV kvs2 f.key_name =
          (if !isVNone dv && !eqEmptyList dv then some dv else none) →
        fromDictFieldVal t (fromDictF t ctor (n + 1)) (elCoerceF t ctor (n + 1)) kvs2 f =
          .ok rv) ∧
      ∃ m, pyEqF t m rv (getattrD flds f.attr_name) = some true := by
  rw [rtOKFieldWith] at hf
  cases hty : f.type_ with
  | some ty =>
    simp only [hty] at hf
    by_cases hEL : isEListCls t ty
    · -- an EntityList-typed field: safety forces a non-multiple None value
      rw [if_pos hEL, Bool.and_eq_true, Bool.not_eq_true'] at hf
      obtain ⟨hmult, hvn⟩ := hf
      rw [isVNone_eq_true_iff] at hvn
      refine ⟨.vnone, .vnone, ?_, ?_, ⟨1, by rw [hvn]; rfl⟩⟩
      · simp [toDictFieldVal, hmult, hvn]
      · intro kvs2 hlk
        have hlk2 : lookupV kvs2 f.key_name = none := hlk
        simp [fromDictFieldVal, hty, hEL, hlk2, fromListWith]
    · rw [if_neg hEL] at hf
      by_cases hmult : f.multiple = true
      · -- a typed multiple field: a list of safe entities of that class
        rw [if_pos hmult] at hf
        obtain ⟨xs, hvl⟩ : ∃ xs, getattrD flds f.attr_name = .vlist xs := by
          cases hv : getattrD flds f.attr_name <;> rw [hv] at hf <;>
            simp at hf <;> exact ⟨_, rfl⟩
        rw [hvl] at hf
        obtain ⟨ds, es, hds, hes, hlds, hles, M, hM⟩ :=
          rtElems t ctor n IH xs ty (fun x hx => by
            have := List.all_eq_true.mp hf x hx
            simpa using this)
        cases xs with
        | nil =>
          refine ⟨.vlist [], .vlist [], ?_, ?_, ⟨1, by rw [hvl]; rfl⟩⟩
          · simp [toDictFieldVal, hmult, hvl, pyTruthy]
          · intro kvs2 hlk
            have hlk2 : lookupV kvs2 f.key_name = none := hlk
            simp [fromDictFieldVal, hty, hEL, hmult, hlk2]
        | cons y ys =>
          have hdsne : ds ≠ [] := by
            intro hd; rw [hd] at hlds; simp at hlds
          have hstored : (!isVNone (Value.vlist ds) && !eqEmptyList (Value.vlist ds)) = true := by
            cases ds with
            | nil => exact absurd rfl hdsne
            | cons d ds2 => rfl
          refine ⟨.vlist ds, .vlist es, ?_, ?_, ?_⟩
          · have htr : pyTruthy t (getattrD flds f.attr_name) = true := by
              rw [hvl]; rfl
            simp only [toDictFieldVal, hmult, if_true, htr, hvl, iterElems, except_ok_bind]
            rw [hds]
            rfl
          · intro kvs2 hlk
            rw [if_pos hstored] at hlk
            simp only [fromDictFieldVal, hty, hEL, Bool.false_eq_true, if_false, hmult,
              if_true, hlk, Option.getD_some]
            rw [hes]
            rfl
          · refine ⟨M + 1, ?_⟩
            rw [hvl]
            simp only [pyEqF]
            rw [if_neg (not_not_intro (by rw [hles]))]
            exact optMapM_eq_some_trues _ (es.zip (y :: ys)) hM
      · -- a typed single field: None or a safe entity of that class
        rw [if_neg hmult] at hf
        cases hv : getattrD flds f.attr_name with
        | vnone =>
          refine ⟨.vnone, .vnone, ?_, ?_, ⟨1, rfl⟩⟩
          · simp [toDictFieldVal, hmult, hv]
          · intro kvs2 hlk
            have hlk2 : lookupV kvs2 f.key_name = none := hlk
            simp [fromDictFieldVal, hty, hEL, hmult, hlk2, fromDictF]
        | vent c' o' f' i' =>
          simp only [hv, Bool.and_eq_true, beq_iff_eq] at hf
          obtain ⟨hceq, hok⟩ := hf
          obtain ⟨dkvs, e', hto, hfrom, m, heq⟩ := IH _ hok
          refine ⟨.vdict dkvs, e', ?_, ?_, ⟨m, heq⟩⟩
          · simp only [toDictFieldVal, hmult, Bool.false_eq_true, if_false, hv]
            exact hto
          · intro kvs2 hlk
            have hlk2 : lookupV kvs2 f.key_name = some (.vdict dkvs) := hlk
            simp only [fromDictFieldVal, hty, hEL, Bool.false_eq_true, if_false, hmult,
              hlk2, Option.getD_some]
            simp only [clsOf] at hfrom
            rw [hceq] at hfrom
            exact hfrom
        | vbool b => rw [hv] at hf; simp at hf
        | vint m => rw [hv] at hf; simp at hf
        | vstr s => rw [hv] at hf; simp at hf
        | vlist xs => rw [hv] at hf; simp at hf
        | vdict kvs => rw [hv] at hf; simp at hf
  | none =>
    simp only [hty] at hf
    by_cases hmult : f.multiple = true
    · -- an untyped multiple field: safety forces the empty list
      rw [if_pos hmult] at hf
      rw [eqEmptyList_eq_true_iff] at hf
      refine ⟨.vlist [], .vlist [], ?_, ?_, ⟨1, by rw [hf]; rfl⟩⟩
      · simp [toDictFieldVal, hmult, hf, pyTruthy]
      · intro kvs2 hlk
        have hlk2 : lookupV kvs2 f.key_name = none := hlk
        simp [fromDictFieldVal, hty, hmult, hlk2, pyTruthy]
    · -- an untyped scalar field
      rw [if_neg hmult] at hf
      by_cases hvn : getattrD flds f.attr_name = .vnone
      · refine ⟨.vnone, .vnone, ?_, ?_, ⟨1, by rw [hvn]; rfl⟩⟩
        · simp [toDictFieldVal, hmult, hvn]
        · intro kvs2 hlk
          have hlk2 : lookupV kvs2 f.key_name = none := hlk
          simp [fromDictFieldVal, hty, hmult, hlk2]
      · have hnn : isVNone (getattrD flds f.attr_name) = false := by
          cases hvv : getattrD flds f.attr_name
          case vnone => exact absurd hvv hvn
          all_goals rfl
        refine ⟨getattrD flds f.attr_name, getattrD flds f.attr_name, ?_, ?_,
          ⟨1, pyEqF_scalar_refl t _ hf 0⟩⟩
        · have hsc : ∀ v, isScalar v = true → getattrD flds f.attr_name = v →
              toDictFieldVal t (toDictF t n) flds f = .ok v := by
            intro v hv hveq
            cases v with
            | vnone => simp [toDictFieldVal, hmult, hveq]
            | vbool b => simp [toDictFieldVal, hmult, hveq]
            | vint m2 => simp [toDictFieldVal, hmult, hveq]
            | vstr s2 => simp [toDictFieldVal, hmult, hveq]
            | vlist l2 => simp [isScalar] at hv
            | vdict d2 => simp [isScalar] at hv
            | vent a b c d => simp [isScalar] at hv
          exact hsc _ hf rfl
        · intro kvs2 hlk
          rw [if_pos (by rw [hnn, eqEmptyList_scalar _ hf]; rfl)] at hlk
          simp [fromDictFieldVal, hty, hmult, hlk]

/-- Round trip of a full descriptor list: `to_dict`'s entry construction
succeeds, and `from_dict`'s slot construction against any mapping agreeing
with the filtered entries reconstructs, slot by slot, values `==` to the
originals. -/
theorem rtFields (t : CTable) (ctor : Ctor) (n : Nat) (IH : RTIH t ctor n) :
    ∀ (fs : List TypedField) (flds : List (String × Value)),
      (∀ f ∈ fs, rtOKFieldWith t (rtOKF t n) (getattrD flds f.attr_name) f = true) →
      (fs.map TypedField.key_name).Nodup →
      (fs.map TypedField.attr_name).Nodup →
      ∃ kvs, fs.mapM (fun f => do
          let v' ← toDictFieldVal t (toDictF t n) flds f
          pure (f.key_name, v')) = .ok kvs ∧
        kvs.map Prod.fst = fs.map TypedField.key_name ∧
        ∀ kvs2 : List (String × Value),
          (∀ f ∈ fs, lookupV kvs2 f.key_name =
            lookupV (kvs.filter (fun kv => !isVNone kv.2 && !eqEmptyList kv.2)) f.key_name) →
          ∃ flds2, fs.mapM (fun f => do
              let v' ← fromDictFieldVal t (fromDictF t ctor (n + 1))
                (elCoerceF t ctor (n + 1)) kvs2 f
              pure (f.attr_name, v')) = .ok flds2 ∧
            flds2.map Prod.fst = fs.map TypedField.attr_name ∧
            ∀ f ∈ fs, ∃ rv, lookupV flds2 f.attr_name = some rv ∧
              ∃ m, pyEqF t m rv (getattrD flds f.attr_name) = some true := by
  intro fs
  induction fs with
  | nil =>
    intro flds _ _ _
    refine ⟨[], by rw [List.mapM_nil]; rfl, rfl, ?_⟩
    intro kvs2 _
    exact ⟨[], by rw [List.mapM_nil]; rfl, rfl, by simp⟩
  | cons f0 fs ihf =>
    intro flds hall hkND haND
    obtain ⟨dv, rv, hto, hfrom, hm⟩ := rtField t ctor n IH flds f0 (hall f0 (by simp))
    simp only [List.map_cons, List.nodup_cons] at hkND haND
    obtain ⟨hk0, hkND2⟩ := hkND
    obtain ⟨ha0, haND2⟩ := haND
    obtain ⟨kvsT, hkvsT, hkeysT, hrestT⟩ :=
      ihf flds (fun f hf => hall f (by simp [hf])) hkND2 haND2
    refine ⟨(f0.key_name, dv) :: kvsT, ?_, ?_, ?_⟩
    · rw [List.mapM_cons, hto, hkvsT]; rfl
    · simp [hkeysT]
    · intro kvs2 hlk
      have hl0 : lookupV kvs2 f0.key_name =
          (if !isVNone dv && !eqEmptyList dv then some dv else none) := by
        have h0 := hlk f0 (by simp)
        rw [h0]
        by_cases hpred : (!isVNone dv && !eqEmptyList dv) = true
        · rw [if_pos hpred]
          simp only [List.filter_cons, hpred, if_pos]
          simp [lookupV]
        · rw [if_neg hpred]
          simp only [List.filter_cons]
          rw [if_neg hpred]
          apply lookupV_eq_none_of_not_mem
          intro hmem
          exact hk0 (by
            have hsub := map_fst_filter_subset
              (fun kv => !isVNone kv.2 && !eqEmptyList kv.2) kvsT _ hmem
            rwa [hkeysT] at hsub)
      have hfrom0 := hfrom kvs2 hl0
      have hlkT : ∀ f ∈ fs, lookupV kvs2 f.key_name =
          lookupV (kvsT.filter (fun kv => !isVNone kv.2 && !eqEmptyList kv.2))
            f.key_name := by
        intro f hfmem
        have h1 := hlk f (by simp [hfmem])
        rw [h1]
        have hkne : ¬(f0.key_name = f.key_name) := by
          intro he
          exact hk0 (he ▸ List.mem_map.mpr ⟨f, hfmem, rfl⟩)
        simp only [List.filter_cons]
        by_cases hpred : (!isVNone dv && !eqEmptyList dv) = true
        · rw [if_pos hpred]
          simp [lookupV, hkne]
        · rw [if_neg hpred]
      obtain ⟨flds2, hflds2, hattrsT, hlook⟩ := hrestT kvs2 hlkT
      refine ⟨(f0.attr_name, rv) :: flds2, ?_, ?_, ?_⟩
      · rw [List.mapM_cons, hfrom0, hflds2]; rfl
      · simp [hattrsT]
      · intro f hfmem
        rcases List.mem_cons.mp hfmem with rfl | hfmem2
        · refine ⟨rv, ?_, hm⟩
          simp [lookupV]
        · have hane : ¬(f0.attr_name = f.attr_name) := by
            intro he
            exact ha0 (he ▸ List.mem_map.mpr ⟨f, hfmem2, rfl⟩)
          obtain ⟨rv2, hrv2, hm2⟩ := hlook f hfmem2
          refine ⟨rv2, ?_, hm2⟩
          simp [lookupV, hane, hrv2]

/-- Controlled unfolding of `from_dict` on a mapping for a known class. -/
theorem fromDictF_vdict (t : CTable) (ctor : Ctor) (n : Nat) (c : String)
    (kvs : List (String × Value)) (cl : EClass) (hcl : lookupC t c = some cl) :
    fromDictF t ctor (n + 1) c (.vdict kvs) = (do
      let flds ← cl.fields.mapM (fun f => do
        let v' ← fromDictFieldVal t (fromDictF t ctor n) (elCoerceF t ctor n) kvs f
        pure (f.attr_name, v'))
      Except.ok (.vent c 0 flds [])) := by
  have h0 : fromDictF t ctor (n + 1) c (.vdict kvs) =
      (match lookupC t c with
      | none => .error (.typeError ("unknown class: " ++ c))
      | some cl2 => do
          let flds ← cl2.fields.mapM (fun f => do
            let v' ← fromDictFieldVal t (fromDictF t ctor n) (elCoerceF t ctor n) kvs f
            pure (f.attr_name, v'))
          Except.ok (.vent c 0 flds [])) := rfl
  rw [h0, hcl]

/-- The round-trip master theorem: every entity safe at fuel `n` converts
through `to_dict` at fuel `n`, reconstructs through `from_dict` at fuel
`n + 1`, and the reconstruction is `==` to the original. -/
theorem rtMaster (t : CTable) (ctor : Ctor) : ∀ n, RTIH t ctor n := by
  intro n
  induction n with
  | zero =>
    intro v h
    rw [rtOKF] at h
    exact absurd h (by simp)
  | succ n ih =>
    intro v h
    obtain ⟨c, o, flds, inner, rfl⟩ : ∃ c o flds inner, v = .vent c o flds inner := by
      cases v <;> simp [rtOKF] at h ⊢
    rw [rtOKF] at h
    cases hcl : lookupC t c with
    | none =>
      simp only [hcl] at h
      exact absurd h (by simp)
    | some cl =>
      simp only [hcl, Bool.and_eq_true, Bool.not_eq_true', bne_iff_ne, ne_eq,
        decide_eq_true_eq, List.all_eq_true] at h
      obtain ⟨⟨⟨⟨⟨hEL, ho⟩, hne⟩, hkND⟩, haND⟩, hall⟩ := h
      obtain ⟨kvs, hkvs, hkeys, hrest⟩ := rtFields t ctor n ih cl.fields flds hall hkND haND
      have hto : toDictF t (n + 1) (.vent c o flds inner) =
          .ok (.vdict (kvs.filter (fun kv => !isVNone kv.2 && !eqEmptyList kv.2))) := by
        simp only [toDictF, hcl, hEL, Bool.false_eq_true, if_false]
        rw [hkvs]
        rfl
      obtain ⟨flds2, hflds2, hattrs, hlook⟩ :=
        hrest (kvs.filter (fun kv => !isVNone kv.2 && !eqEmptyList kv.2)) (fun _ _ => rfl)
      have hfrom : fromDictF t ctor (n + 1 + 1) c
          (.vdict (kvs.filter (fun kv => !isVNone kv.2 && !eqEmptyList kv.2))) =
          .ok (.vent c 0 flds2 []) := by
        rw [fromDictF_vdict t ctor (n + 1) c _ cl hcl, hflds2]
        rfl
      have hpairs : ∀ p ∈ cl.fields.map
          (fun f => (getattrD flds2 f.attr_name, getattrD flds f.attr_name)),
          ∃ m, pyEqF t m p.1 p.2 = some true := by
        intro p hp
        obtain ⟨f, hf, rfl⟩ := List.mem_map.mp hp
        obtain ⟨rv, hrv, m, hm⟩ := hlook f hf
        refine ⟨m, ?_⟩
        show pyEqF t m (getattrD flds2 f.attr_name) (getattrD flds f.attr_name) = some true
        rw [getattrD, hrv]
        exact hm
      obtain ⟨M, hMall⟩ := pyEqF_uniform t _ hpairs
      have heq : pyEqF t (M + 1) (.vent c 0 flds2 []) (.vent c o flds inner) = some true := by
        simp only [pyEqF]
        rw [if_neg (fun he : (0 : Nat) = o => ho he.symm)]
        rw [if_neg (not_not_intro rfl)]
        have hvars : getVars t c = cl.fields := by simp [getVars, hcl]
        rw [hvars]
        rw [if_neg (by rw [hne]; simp)]
        apply optMapM_eq_some_trues
        intro f hf
        by_cases hc : f.comparable = true
        · rw [if_pos hc]
          exact hMall _ (List.mem_map.mpr ⟨f, hf, rfl⟩)
        · rw [if_neg hc]; rfl
      refine ⟨kvs.filter (fun kv => !isVNone kv.2 && !eqEmptyList kv.2),
        .vent c 0 flds2 [], hto, ?_, ⟨M + 1, heq⟩⟩
      simp only [clsOf]
      exact hfrom

/-! ## Lemmas about the namespace-set operations -/

theorem mem_nsInsert (s : List NS) (x y : NS) : y ∈ nsInsert s x ↔ y = x ∨ y ∈ s := by
  rw [nsInsert]
  by_cases hx : x ∈ s
  · rw [if_pos hx]
    constructor
    · intro h; exact Or.inr h
    · intro h; rcases h with rfl | h
      · exact hx
      · exact h
  · rw [if_neg hx]
    simp

theorem nodup_nsInsert (s : List NS) (x : NS) (h : s.Nodup) : (nsInsert s x).Nodup := by
  rw [nsInsert]
  by_cases hx : x ∈ s
  · rwa [if_pos hx]
  · rw [if_neg hx]
    exact List.nodup_cons.mpr ⟨hx, h⟩

theorem mem_nsUnionL (xs : List NS) :
    ∀ (s : List NS) (y : NS), y ∈ nsUnionL s xs ↔ y ∈ s ∨ y ∈ xs := by
  induction xs with
  | nil => intro s y; simp [nsUnionL]
  | cons x xs ih =>
    intro s y
    rw [nsUnionL] at *
    simp only [List.foldl_cons]
    rw [show List.foldl nsInsert (nsInsert s x) xs = nsUnionL (nsInsert s x) xs from rfl,
      ih, mem_nsInsert]
    simp only [List.mem_cons]
    tauto

theorem nodup_nsUnionL (xs : List NS) :
    ∀ (s : List NS), s.Nodup → (nsUnionL s xs).Nodup := by
  induction xs with
  | nil => intro s h; exact h
  | cons x xs ih =>
    intro s h
    rw [nsUnionL, List.foldl_cons]
    exact ih (nsInsert s x) (nodup_nsInsert s x h)

theorem mem_nsSortInsert (x : NS) : ∀ (l : List NS) (y : NS),
    y ∈ nsSortInsert x l ↔ y = x ∨ y ∈ l := by
  intro l
  induction l with
  | nil => intro y; simp [nsSortInsert]
  | cons z zs ih =>
    intro y
    rw [nsSortInsert]
    by_cases hc : nsSortKey x ≤ nsSortKey z
    · rw [if_pos hc]; simp
    · rw [if_neg hc]
      simp only [List.mem_cons, ih]
      tauto

theorem mem_nsSort : ∀ (l : List NS) (y : NS), y ∈ nsSort l ↔ y ∈ l := by
  intro l
  induction l with
  | nil => intro y; simp [nsSort]
  | cons z zs ih =>
    intro y
    rw [nsSort, mem_nsSortInsert]
    simp [ih]

theorem pyJoin_infix (sep : String) :
    ∀ (parts : List String) (p : String), p ∈ parts →
      p.data <:+: (pyJoin sep parts).data := by
  intro parts
  induction parts with
  | nil => intro p hp; simp at hp
  | cons x xs ih =>
    intro p hp
    rcases List.mem_cons.mp hp with rfl | hp2
    · cases xs with
      | nil => exact (pyJoin sep [p]).data.infix_refl
      | cons y ys =>
        rw [show pyJoin sep (p :: y :: ys) = p ++ sep ++ pyJoin sep (y :: ys) from rfl]
        refine ⟨[], (sep ++ pyJoin sep (y :: ys)).data, ?_⟩
        simp [String.data_append]
    · cases xs with
      | nil => simp at hp2
      | cons y ys =>
        rw [show pyJoin sep (x :: y :: ys) = x ++ sep ++ pyJoin sep (y :: ys) from rfl]
        obtain ⟨u, v, huv⟩ := ih p hp2
        refine ⟨(x ++ sep).data ++ u, v, ?_⟩
        simp only [String.data_append, ← huv]
        simp

/-- An infix of a middle segment is an infix of any surrounding
concatenation. -/
theorem infix_of_middle {α : Type} (pre post : List α) {seg mid : List α}
    (h : seg <:+: mid) : seg <:+: pre ++ mid ++ post := by
  obtain ⟨u, v, rfl⟩ := h
  exact ⟨pre ++ u, v ++ post, by simp⟩

/-! ## Concrete fixtures used by witnesses and counterexamples -/

/-- An untyped, single-valued, comparable descriptor. -/
def fieldX : TypedField := ⟨"x", "X", "x", none, false, true⟩

/-- A typed (`Q`), `multiple`, comparable descriptor. -/
def fieldXs : TypedField := ⟨"xs", "Xs", "xs", some "Q", true, true⟩

/-- A one-class table: `P` with the single scalar descriptor `fieldX`. -/
def tblP : CTable := [("P", ⟨[fieldX], false, "", "", ["P"], ["urn:p"]⟩)]

/-- A `P` instance with `x = "a"`. -/
def entP : Value := .vent "P" 1 [("x", .vstr "a")] []

/-- Table for the C1 counterexample: `A` has one typed `multiple` field. -/
def tblC1 : CTable :=
  [("A", ⟨[fieldXs], false, "", "", ["A"], []⟩),
   ("Q", ⟨[fieldX], false, "", "", ["Q"], []⟩)]

/-- An `A` instance whose `multiple` field was never set (`None`). -/
def entC1 : Value := .vent "A" 1 [] []

/-- An `EntityList` subclass `L` with `_contained_type = T` and a plain
entity class `T`. -/
def tblLT : CTable :=
  [("L", ⟨[], true, "T", "items", ["L", "EntityList"], []⟩),
   ("T", ⟨[fieldX], false, "", "", ["T"], []⟩)]

/-- A constructor table whose classes accept a scalar (storing it in a
slot), standing in for subclasses that "provide a sane constructor". -/
def someCtor : Ctor := fun c w => .ok (.vent c 0 [("val", w)] [])

/-- A concrete namespace registry. -/
def meta0 : Meta :=
  ⟨fun u => ⟨u, "p", none⟩,
   ⟨"http://www.w3.org/2001/XMLSchema-instance", "xsi", none⟩,
   ⟨"http://maec.mitre.org/default_vocabularies-1", "maecVocabs", none⟩⟩

/-! ## The claims -/

/-- C1 (counterexample): the round trip `from_dict(e.to_dict()) == e` fails
for an entity of a class with a non-empty descriptor set when a comparable
`multiple` field holds `None`: `to_dict` omits it, `from_dict` back-fills
`[]`, and `None != []`, so the reconstruction compares unequal at every
sufficient fuel. -/
theorem maec_c1_counterexample :
    getVars tblC1 "A" ≠ [] ∧
    toDictF tblC1 2 entC1 = .ok (.vdict []) ∧
    fromDictF tblC1 defaultCtor 2 "A" (.vdict []) =
      .ok (.vent "A" 0 [("xs", .vlist [])] []) ∧
    ∀ m, pyEqF tblC1 (m + 2) (.vent "A" 0 [("xs", .vlist [])] []) entC1 = some false := by
  refine ⟨by decide, rfl, rfl, fun m => rfl⟩

/-- C1 (amended): `from_dict(e.to_dict())` reconstructs an entity `==` to
`e` (on every comparable descriptor; non-comparable fields are not
compared) for every entity satisfying `rtOKF`: a non-`EntityList` class
with a non-empty, duplicate-free descriptor set whose fields,
recursively, hold class-correct values — in particular no `multiple` field
holds `None` (it would rebuild as `[]`), no `EntityList`-typed field holds
a value (a rebuilt `EntityList` is never `==` to the original, its class
declaring no descriptors), untyped `multiple` fields hold `[]`, and
untyped fields hold scalars. -/
theorem maec_c1_roundtrip_amended (t : CTable) (ctor : Ctor) (n : Nat) (v : Value)
    (h : rtOKF t n v = true) :
    ∃ d e', toDictF t n v = .ok d ∧
      fromDictF t ctor (n + 1) (clsOf v) d = .ok e' ∧
      ∃ m, pyEqF t m e' v = some true := by
  obtain ⟨dkvs, e', h1, h2, h3⟩ := rtMaster t ctor n v h
  exact ⟨.vdict dkvs, e', h1, h2, h3⟩

/-- C1 (witness): the amended round trip applied to a concrete safe
entity. -/
theorem maec_c1_witness :
    rtOKF tblP 1 entP = true ∧
    (∃ d e', toDictF tblP 1 entP = .ok d ∧
      fromDictF tblP defaultCtor 2 (clsOf entP) d = .ok e' ∧
      ∃ m, pyEqF tblP m e' entP = some true) :=
  ⟨rfl, maec_c1_roundtrip_amended tblP defaultCtor 1 entP rfl⟩

/-- C2: `Entity.__eq__` — two entities compare equal iff they are the same
object (same object id), or their runtime classes are identical, the class
declares at least one `TypedField`, and every comparable descriptor field
compares `==`.  With an empty descriptor set the right-hand side collapses
to object identity: distinct descriptor-less instances are never equal. -/
theorem maec_c2_eq_iff (t : CTable) (n : Nat) (c₁ c₂ : String) (o₁ o₂ : Nat)
    (flds₁ flds₂ : List (String × Value)) (i₁ i₂ : List Value) :
    pyEqF t (n + 1) (.vent c₁ o₁ flds₁ i₁) (.vent c₂ o₂ flds₂ i₂) = some true ↔
      o₁ = o₂ ∨ (c₁ = c₂ ∧ getVars t c₁ ≠ [] ∧
        ∀ f ∈ getVars t c₁, f.comparable = true →
          pyEqF t n (getattrD flds₁ f.attr_name) (getattrD flds₂ f.attr_name) =
            some true) := by
  simp only [pyEqF]
  by_cases ho : o₁ = o₂
  · rw [if_pos ho]; simp [ho]
  · rw [if_neg ho]
    by_cases hc : c₁ ≠ c₂
    · rw [if_pos hc]
      simp [ho, hc]
    · rw [if_neg hc]
      have hc2 : c₁ = c₂ := not_not.mp hc
      by_cases hv : (getVars t c₁).isEmpty
      · rw [if_pos hv]
        have hnil : getVars t c₁ = [] := by
          cases he : getVars t c₁ with
          | nil => rfl
          | cons a as => rw [he] at hv; simp at hv
        simp [ho, hnil]
      · rw [if_neg hv]
        have hvne : getVars t c₁ ≠ [] := by
          intro he; rw [he] at hv; exact hv rfl
        constructor
        · intro h
          refine Or.inr ⟨hc2, hvne, ?_⟩
          intro f hf hcmp
          have hg := optMapM_forall_of_some_true _ _ h f hf
          rwa [if_pos hcmp] at hg
        · rintro (h | ⟨_, _, hall⟩)
          · exact absurd h ho
          · apply optMapM_eq_some_trues
            intro f hf
            by_cases hcmp : f.comparable = true
            · rw [if_pos hcmp]; exact hall f hf hcmp
            · rw [if_neg hcmp]; rfl

theorem except_bind_ok_inv {α β : Type} (x : Except PErr α) (f : α → Except PErr β)
    (b : β) (h : (x >>= f) = .ok b) : ∃ a, x = .ok a ∧ f a = .ok b := by
  cases x with
  | error e => simp at h
  | ok a => exact ⟨a, rfl, h⟩

/-- C3: sparsity of `to_dict` — whenever `to_dict` returns a mapping, no
entry's value is `None` and none is the empty list (such values are
omitted by the `val is not None and val != []` filter; the
`_finalize_dict` hook is the default no-op). -/
theorem maec_c3_to_dict_sparsity (t : CTable) (n : Nat) (v : Value)
    (kvs : List (String × Value)) (h : toDictF t n v = .ok (.vdict kvs)) :
    ∀ kv ∈ kvs, kv.2 ≠ .vnone ∧ kv.2 ≠ .vlist [] := by
  cases n with
  | zero => simp [toDictF] at h
  | succ n =>
    cases v with
    | vent c o flds inner =>
      simp only [toDictF] at h
      cases hcl : lookupC t c with
      | none =>
        simp only [hcl] at h
        exact absurd h (by simp)
      | some cl =>
        simp only [hcl] at h
        by_cases hel : cl.isEList = true
        · rw [if_pos hel] at h
          obtain ⟨ds, _, h2⟩ := except_bind_ok_inv _ _ _ h
          simp at h2
        · rw [if_neg hel] at h
          obtain ⟨kvs0, _, h2⟩ := except_bind_ok_inv _ _ _ h
          simp only [Except.ok.injEq, Value.vdict.injEq] at h2
          intro kv hkv
          rw [← h2] at hkv
          have hmem := List.mem_filter.mp hkv
          have hpred := hmem.2
          simp only [Bool.and_eq_true, Bool.not_eq_true'] at hpred
          constructor
          · intro he
            rw [he] at hpred
            exact absurd hpred.1 (by simp [isVNone])
          · intro he
            rw [he] at hpred
            exact absurd hpred.2 (by simp [eqEmptyList])
    | vnone => simp [toDictF] at h
    | vbool b => simp [toDictF] at h
    | vint m => simp [toDictF] at h
    | vstr s => simp [toDictF] at h
    | vlist xs => simp [toDictF] at h
    | vdict kvs2 => simp [toDictF] at h

/-- C3 (witness): the sparsity theorem applied to a concrete entity. -/
theorem maec_c3_witness :
    toDictF tblP 1 entP = .ok (.vdict [("x", .vstr "a")]) ∧
    ∀ kv ∈ [(("x" : String), Value.vstr "a")], kv.2 ≠ .vnone ∧ kv.2 ≠ .vlist [] :=
  ⟨rfl, maec_c3_to_dict_sparsity tblP 1 entP _ rfl⟩

/-- Controlled unfolding of the `EntityList` write-path validation. -/
theorem elCoerceF_succ (t : CTable) (ctor : Ctor) (n : Nat) (listCls : String) (v : Value) :
    elCoerceF t ctor (n + 1) listCls v =
      (if elIsValid t listCls v then .ok v
       else match pyConstructF t ctor n (containedOf t listCls) v with
            | .ok w => .ok w
            | .error _ => .error (.valueError (fixValueMsg v listCls))) := rfl

/-- C5: every `EntityList` write path (`insert` and index assignment)
validates the new element: a value passing `_contained_type.istypeof` is
stored unchanged; a failing value is replaced by `_contained_type(value)`;
and when that construction also fails (with any exception — the
`try`/bare-`except`), a `ValueError` naming the rejected value, its type
and the list class (`fixValueMsg`) is raised. -/
theorem maec_c5_entitylist_write (t : CTable) (ctor : Ctor) (cf : Nat) (listCls : String)
    (inner : List Value) (idx : Nat) (v : Value) :
    (elIsValid t listCls v = true →
      elInsertF t ctor (cf + 1) listCls inner idx v = .ok (pyInsertAt inner idx v) ∧
      elSetItemF t ctor (cf + 1) listCls inner idx v = .ok (inner.set idx v)) ∧
    (elIsValid t listCls v = false →
      ∀ w, pyConstructF t ctor cf (containedOf t listCls) v = .ok w →
        elInsertF t ctor (cf + 1) listCls inner idx v = .ok (pyInsertAt inner idx w) ∧
        elSetItemF t ctor (cf + 1) listCls inner idx v = .ok (inner.set idx w)) ∧
    (elIsValid t listCls v = false →
      ∀ e, pyConstructF t ctor cf (containedOf t listCls) v = .error e →
        elInsertF t ctor (cf + 1) listCls inner idx v =
          .error (.valueError (fixValueMsg v listCls)) ∧
        elSetItemF t ctor (cf + 1) listCls inner idx v =
          .error (.valueError (fixValueMsg v listCls))) := by
  refine ⟨?_, ?_, ?_⟩
  · intro hv
    constructor <;> simp [elInsertF, elSetItemF, elCoerceF_succ, hv, Except.map]
  · intro hv w hw
    constructor <;> simp [elInsertF, elSetItemF, elCoerceF_succ, hv, hw, Except.map]
  · intro hv e he
    constructor <;> simp [elInsertF, elSetItemF, elCoerceF_succ, hv, he, Except.map]

/-- C5 (witness): the three write-path behaviours on concrete inputs. -/
theorem maec_c5_witness :
    (elIsValid tblLT "L" (.vent "T" 1 [] []) = true ∧
      elInsertF tblLT defaultCtor 2 "L" [] 0 (.vent "T" 1 [] []) =
        .ok [.vent "T" 1 [] []]) ∧
    (elIsValid tblLT "L" (.vstr "z") = false ∧
      pyConstructF tblLT someCtor 1 "T" (.vstr "z") =
        .ok (.vent "T" 0 [("val", .vstr "z")] []) ∧
      elInsertF tblLT someCtor 2 "L" [] 0 (.vstr "z") =
        .ok [.vent "T" 0 [("val", .vstr "z")] []]) ∧
    (elIsValid tblLT "L" (.vstr "z") = false ∧
      elSetItemF tblLT defaultCtor 2 "L" [.vent "T" 1 [] []] 0 (.vstr "z") =
        .error (.valueError (fixValueMsg (.vstr "z") "L"))) := by
  refine ⟨⟨rfl, ?_⟩, ⟨rfl, rfl, ?_⟩, ⟨rfl, ?_⟩⟩
  · exact ((maec_c5_entitylist_write tblLT defaultCtor 1 "L" [] 0
      (.vent "T" 1 [] [])).1 rfl).1
  · exact (((maec_c5_entitylist_write tblLT someCtor 1 "L" [] 0
      (.vstr "z")).2.1 rfl) _ rfl).1
  · exact (((maec_c5_entitylist_write tblLT defaultCtor 1 "L" [.vent "T" 1 [] []] 0
      (.vstr "z")).2.2 rfl) _ rfl).2

/-- Controlled unfolding of `from_obj` at positive fuel. -/
theorem fromObjF_succ (t : CTable) (ctor : Ctor) (n : Nat) (c : String) (bobj : Value) :
    fromObjF t ctor (n + 1) c bobj =
      (match lookupC t c with
       | none => Except.error (.typeError ("unknown class: " ++ c))
       | some cl2 =>
         if cl2.isEList then
           elFromObjWith t (fromObjF t ctor n) (elCoerceF t ctor n) c bobj
         else if !pyTruthy t bobj then Except.ok Value.vnone
         else
           match bobj with
           | .vdict bflds => do
             let flds ← cl2.fields.mapM (fun f => do
               let v' ← fromObjFieldVal (fromObjF t ctor n) bflds f
               pure (f.attr_name, v'))
             Except.ok (.vent c 0 flds [])
           | _ => Except.error .attrError) := rfl

/-- `Entity.from_obj` / `EntityList.from_obj` on falsy input: `None`
(`if not cls_obj: return None`, and the same guard in
`EntityList.from_obj`). -/
theorem fromObjF_falsy (t : CTable) (ctor : Ctor) (n : Nat) (c : String) (cl : EClass)
    (hcl : lookupC t c = some cl) (bobj : Value) (hb : pyTruthy t bobj = false) :
    fromObjF t ctor (n + 1) c bobj = .ok .vnone := by
  rw [fromObjF_succ]
  simp only [hcl]
  by_cases hel : cl.isEList = true
  · rw [if_pos hel]
    simp [elFromObjWith, hb]
  · rw [if_neg hel]
    simp [hb]

/-- C6 (counterexample): `Entity.from_dict` given an *empty* dictionary
does not return `None` — it allocates a fresh entity with default field
values (`if cls_dict is None` is the only `None` return). -/
theorem maec_c6_counterexample :
    fromDictF tblP defaultCtor 2 "P" (.vdict []) =
      .ok (.vent "P" 0 [("x", .vnone)] []) ∧
    ¬ fromDictF tblP defaultCtor 2 "P" (.vdict []) = .ok .vnone := by
  refine ⟨rfl, ?_⟩
  intro h
  rw [show fromDictF tblP defaultCtor 2 "P" (.vdict []) =
      .ok (.vent "P" 0 [("x", .vnone)] []) from rfl] at h
  simp at h

/-- C6 (amended): `from_obj` (both the `Entity` and the dispatched
`EntityList` variant) returns `None` on falsy (none/empty) input, and
`from_dict` returns `None` on `None` input — but an empty dictionary
allocates an entity (see the counterexample). -/
theorem maec_c6_missing_input_amended (t : CTable) (ctor : Ctor) (n : Nat) (c : String)
    (cl : EClass) (hcl : lookupC t c = some cl) :
    (∀ bobj, pyTruthy t bobj = false → fromObjF t ctor (n + 1) c bobj = .ok .vnone) ∧
    fromDictF t ctor (n + 1) c .vnone = .ok .vnone := by
  exact ⟨fun bobj hb => fromObjF_falsy t ctor n c cl hcl bobj hb, rfl⟩

/-- C6 (witness): the amended behaviour on concrete falsy inputs, for both
a plain entity class and an `EntityList` class. -/
theorem maec_c6_witness :
    pyTruthy tblP .vnone = false ∧
    fromObjF tblP defaultCtor 2 "P" .vnone = .ok .vnone ∧
    fromObjF tblLT defaultCtor 2 "L" .vnone = .ok .vnone ∧
    fromDictF tblP defaultCtor 2 "P" .vnone = .ok .vnone := by
  refine ⟨rfl, ?_, ?_, ?_⟩
  · exact (maec_c6_missing_input_amended tblP defaultCtor 1 "P" _ rfl).1 .vnone rfl
  · exact (maec_c6_missing_input_amended tblLT defaultCtor 1 "L" _ rfl).1 .vnone rfl
  · exact (maec_c6_missing_input_amended tblP defaultCtor 1 "P" _ rfl).2

/-- C7 (counterexample): for an `EntityList` subclass, `from_dict` on a
non-mapping scalar is *not* wrapped into a `TypeError`: the generic
`EntityList.__init__` coerces the argument, its `_fix_value` raises a
`ValueError`, and `from_dict`'s `except TypeError` lets it propagate
unchanged. -/
theorem maec_c7_counterexample :
    fromDictF tblLT defaultCtor 4 "L" (.vstr "z") =
      .error (.valueError (fixValueMsg (.vstr "z") "L")) ∧
    ∀ msg, fromDictF tblLT defaultCtor 4 "L" (.vstr "z") ≠ .error (.typeError msg) := by
  refine ⟨rfl, ?_⟩
  intro msg h
  rw [show fromDictF tblLT defaultCtor 4 "L" (.vstr "z") =
      .error (.valueError (fixValueMsg (.vstr "z") "L")) from rfl] at h
  simp at h

/-- C7 (amended): `from_dict` on a non-`None`, non-mapping scalar runs
`cls(value)`: a successful construction is returned as is; a `TypeError`
is caught and wrapped into
`TypeError("Could not instantiate a %s from a %s: %s")` naming the class,
the value's type and the value; any other failure (e.g. the `ValueError`
from `EntityList` coercion) propagates unchanged. -/
theorem maec_c7_scalar_from_dict_amended (t : CTable) (ctor : Ctor) (n : Nat) (c : String)
    (v : Value) (hv1 : v ≠ .vnone) (hv2 : ∀ kvs, v ≠ .vdict kvs) :
    (∀ w, pyConstructF t ctor n c v = .ok w → fromDictF t ctor (n + 1) c v = .ok w) ∧
    (∀ msg, pyConstructF t ctor n c v = .error (.typeError msg) →
      fromDictF t ctor (n + 1) c v = .error (.typeError (fromDictWrapMsg c v))) ∧
    (∀ e, pyConstructF t ctor n c v = .error e → (∀ msg, e ≠ .typeError msg) →
      fromDictF t ctor (n + 1) c v = .error e) := by
  have hstep : fromDictF t ctor (n + 1) c v =
      (match pyConstructF t ctor n c v with
       | .ok w => .ok w
       | .error (.typeError _) => .error (.typeError (fromDictWrapMsg c v))
       | .error e => .error e) := by
    cases v with
    | vnone => exact absurd rfl hv1
    | vdict kvs => exact absurd rfl (hv2 kvs)
    | vbool b => rfl
    | vint m => rfl
    | vstr s => rfl
    | vlist xs => rfl
    | vent a b c2 d => rfl
  refine ⟨?_, ?_, ?_⟩
  · intro w hw; rw [hstep, hw]
  · intro msg hmsg; rw [hstep, hmsg]
  · intro e he hne
    rw [hstep, he]
    cases e with
    | typeError m => exact absurd rfl (hne m)
    | valueError m => rfl
    | attrError => rfl
    | fuel => rfl

/-- C7 (witness): a successful scalar construction is returned, and a
`TypeError` from the constructor is wrapped. -/
theorem maec_c7_witness :
    pyConstructF tblP someCtor 1 "P" (.vstr "s") =
      .ok (.vent "P" 0 [("val", .vstr "s")] []) ∧
    fromDictF tblP someCtor 2 "P" (.vstr "s") =
      .ok (.vent "P" 0 [("val", .vstr "s")] []) ∧
    fromDictF tblP defaultCtor 2 "P" (.vstr "s") =
      .error (.typeError (fromDictWrapMsg "P" (.vstr "s"))) := by
  refine ⟨rfl, ?_, ?_⟩
  · exact (maec_c7_scalar_from_dict_amended tblP someCtor 1 "P" (.vstr "s")
      (by simp) (fun kvs => by simp)).1 _ rfl
  · exact (maec_c7_scalar_from_dict_amended tblP defaultCtor 1 "P" (.vstr "s")
      (by simp) (fun kvs => by simp)).2.1 _ rfl

/-- C9: `EntityList.from_list` returns `None` for every non-list input, so
`object_from_list` — which calls `.to_obj()` on the result unguarded —
fails with an attribute error instead of returning `None` or a binding
object; `list_from_object` fails the same way on a falsy binding object
(`from_obj` returns `None`, then `.to_list()` is called on `None`). -/
theorem maec_c9_from_list_unguarded (t : CTable) (ctor : Ctor) (n : Nat) (listCls : String)
    (cl : EClass) (hcl : lookupC t listCls = some cl)
    (x : Value) (hx : ∀ xs, x ≠ .vlist xs) (lobj : Value)
    (hl : pyTruthy t lobj = false) :
    fromListF t ctor n listCls x = .ok .vnone ∧
    objectFromListF t ctor (n + 1) listCls x = .error .attrError ∧
    listFromObjectF t ctor (n + 1) listCls lobj = .error .attrError := by
  have h1 : ∀ fl, fromListF t ctor fl listCls x = .ok .vnone := by
    intro fl
    cases x with
    | vlist xs => exact absurd rfl (hx xs)
    | vnone => rfl
    | vbool b => rfl
    | vint m => rfl
    | vstr s => rfl
    | vdict kvs => rfl
    | vent a b c2 d => rfl
  refine ⟨h1 n, ?_, ?_⟩
  · rw [show objectFromListF t ctor (n + 1) listCls x =
        (fromListF t ctor (n + 1) listCls x) >>= toObjF t (n + 1) from rfl, h1 (n + 1)]
    rfl
  · rw [show listFromObjectF t ctor (n + 1) listCls lobj =
        (fromObjF t ctor (n + 1) listCls lobj) >>= toDictF t (n + 1) from rfl,
      fromObjF_falsy t ctor n listCls cl hcl lobj hl]
    rfl

/-- C9 (witness): the unguarded dereference on concrete inputs. -/
theorem maec_c9_witness :
    fromListF tblLT defaultCtor 2 "L" (.vstr "s") = .ok .vnone ∧
    objectFromListF tblLT defaultCtor 3 "L" (.vstr "s") = .error .attrError ∧
    listFromObjectF tblLT defaultCtor 3 "L" .vnone = .error .attrError :=
  maec_c9_from_list_unguarded tblLT defaultCtor 2 "L" _ rfl (.vstr "s")
    (fun xs => by simp) .vnone rfl

/-- Membership in the additional-namespace fold of
`Entity._get_namespace_def`. -/
theorem mem_addFold (names : List String) :
    ∀ (add : List (String × String)) (s : List NS) (y : NS),
      y ∈ add.foldl (fun s2 p => if p.1 ∈ names then s2
        else nsUnionL s2 [⟨p.1, p.2, none⟩]) s ↔
      y ∈ s ∨ ∃ p ∈ add, y = ⟨p.1, p.2, none⟩ ∧ p.1 ∉ names := by
  intro add
  induction add with
  | nil => intro s y; simp
  | cons q add ih =>
    intro s y
    rw [List.foldl_cons, ih]
    by_cases hq : q.1 ∈ names
    · rw [if_pos hq]
      constructor
      · rintro (hy | ⟨p, hp, h2, h3⟩)
        · exact Or.inl hy
        · exact Or.inr ⟨p, by simp [hp], h2, h3⟩
      · rintro (hy | ⟨p, hp, h2, h3⟩)
        · exact Or.inl hy
        · rcases List.mem_cons.mp hp with rfl | hp2
          · exact absurd hq h3
          · exact Or.inr ⟨p, hp2, h2, h3⟩
    · rw [if_neg hq]
      rw [show (nsUnionL s [⟨q.1, q.2, none⟩] : List NS) = nsUnionL s [⟨q.1, q.2, none⟩]
        from rfl]
      constructor
      · rintro (hy | ⟨p, hp, h2, h3⟩)
        · rcases (mem_nsUnionL _ _ _).mp hy with hy2 | hy2
          · exact Or.inl hy2
          · simp only [List.mem_singleton] at hy2
            exact Or.inr ⟨q, by simp, hy2, hq⟩
        · exact Or.inr ⟨p, by simp [hp], h2, h3⟩
      · rintro (hy | ⟨p, hp, h2, h3⟩)
        · exact Or.inl ((mem_nsUnionL _ _ _).mpr (Or.inl hy))
        · rcases List.mem_cons.mp hp with rfl | hp2
          · exact Or.inl ((mem_nsUnionL _ _ _).mpr (Or.inr (by simp [h2])))
          · exact Or.inr ⟨p, hp2, h2, h3⟩

/-- C8 (counterexample): with `include_namespaces` true but an entity graph
whose classes declare no namespaces, the walk collects nothing and
`_get_namespace_def` returns the empty string — the `xsi` declaration is
*not* always present, it is added only inside `if namespaces:`. -/
theorem maec_c8_counterexample :
    getNSF [("N", ⟨[], false, "", "", ["N"], []⟩)] meta0 [(1, ⟨"N", []⟩)] 2 [] 1 =
      some [] ∧
    nsDefString meta0 [] [] = "" ∧
    ¬ (xmlnsEntry meta0.xsi).data <:+: (nsDefString meta0 [] []).data := by
  refine ⟨rfl, rfl, ?_⟩
  rw [show nsDefString meta0 [] [] = "" from rfl]
  intro hinf
  have hnil := List.eq_nil_of_infix_nil hinf
  simp [xmlnsEntry, meta0] at hnil

/-- C8 (amended): when the walk collected a non-empty namespace set `nss`,
the declaration set contains every collected namespace plus the `xsi` and
`maecVocabs` registry entries, a caller-supplied pair is added exactly when
its URI is not already among the collected names, and the declaration
string carries each member's `xmlns:prefix="uri"` entry as a substring.
When the walk collects nothing the string is empty (see the
counterexample). -/
theorem maec_c8_nsdef_amended (t : CTable) (meta : Meta) (h : Heap) (fuel root : Nat)
    (nss : List NS) (add : List (String × String))
    (hwalk : getNSF t meta h fuel [] root = some nss) (hne : nss ≠ []) :
    (∀ x, (x ∈ nss ∨ x = meta.xsi ∨ x = meta.vocabs) → x ∈ nsDefSet meta nss add) ∧
    (∀ p ∈ add, p.1 ∉ (nsUnionL (nsUnionL nss [meta.xsi]) [meta.vocabs]).map NS.name →
      (⟨p.1, p.2, none⟩ : NS) ∈ nsDefSet meta nss add) ∧
    (∀ y ∈ nsDefSet meta nss add,
      y ∈ nsUnionL (nsUnionL nss [meta.xsi]) [meta.vocabs] ∨
      ∃ p ∈ add, y = ⟨p.1, p.2, none⟩ ∧
        p.1 ∉ (nsUnionL (nsUnionL nss [meta.xsi]) [meta.vocabs]).map NS.name) ∧
    (∀ x ∈ nsDefSet meta nss add,
      (xmlnsEntry x).data <:+: (nsDefString meta nss add).data) := by
  have hne2 : (!nss.isEmpty) = true := by
    cases nss with
    | nil => exact absurd rfl hne
    | cons a as => rfl
  have hbase : nsDefBase meta nss = nsUnionL (nsUnionL nss [meta.xsi]) [meta.vocabs] := by
    simp [nsDefBase, hne2]
  have hvmem : meta.vocabs ∈ nsUnionL (nsUnionL nss [meta.xsi]) [meta.vocabs] :=
    (mem_nsUnionL _ _ _).mpr (Or.inr (by simp))
  have hs1e : (!(nsDefBase meta nss).isEmpty) = true := by
    rw [hbase]
    cases he : nsUnionL (nsUnionL nss [meta.xsi]) [meta.vocabs] with
    | nil => rw [he] at hvmem; simp at hvmem
    | cons a as => rfl
  have hmemset : ∀ y, y ∈ nsDefSet meta nss add ↔
      (y ∈ nsUnionL (nsUnionL nss [meta.xsi]) [meta.vocabs] ∨
        ∃ p ∈ add, y = ⟨p.1, p.2, none⟩ ∧
          p.1 ∉ (nsUnionL (nsUnionL nss [meta.xsi]) [meta.vocabs]).map NS.name) := by
    intro y
    by_cases hadd : add = []
    · subst hadd
      rw [nsDefSet]
      simp only [List.isEmpty_nil, Bool.not_true, Bool.and_false, Bool.false_eq_true,
        if_false, hbase]
      simp
    · cases add with
      | nil => exact absurd rfl hadd
      | cons q qs =>
        rw [nsDefSet, hs1e]
        simp only [Bool.true_and, List.isEmpty_cons, Bool.not_false, if_true]
        rw [hbase, mem_addFold]
  refine ⟨?_, ?_, ?_, ?_⟩
  · intro x hx
    rw [hmemset]
    left
    rcases hx with hx | rfl | rfl
    · exact (mem_nsUnionL _ _ _).mpr (Or.inl ((mem_nsUnionL _ _ _).mpr (Or.inl hx)))
    · exact (mem_nsUnionL _ _ _).mpr (Or.inl ((mem_nsUnionL _ _ _).mpr (Or.inr (by simp))))
    · exact hvmem
  · intro p hp hfresh
    rw [hmemset]
    exact Or.inr ⟨p, hp, rfl, hfresh⟩
  · intro y hy
    exact (hmemset y).mp hy
  · intro x hx
    have hsetne : (nsDefSet meta nss add).isEmpty = false := by
      cases he : nsDefSet meta nss add with
      | nil => rw [he] at hx; simp at hx
      | cons a as => rfl
    have hstr : nsDefString meta nss add =
        "\n\t" ++ getXmlnsString (nsSort (nsDefSet meta nss add)) ++
          "\n\txsi:schemaLocation=\"" ++
          getSchemalocString (nsSort (nsDefSet meta nss add)) ++ "\"" := by
      rw [nsDefString, hsetne]
      simp
    obtain ⟨u, v, huv⟩ := pyJoin_infix "\n\t"
      ((nsSort (nsDefSet meta nss add)).map xmlnsEntry) (xmlnsEntry x)
      (List.mem_map.mpr ⟨x, (mem_nsSort _ _).mpr hx, rfl⟩)
    rw [hstr]
    refine ⟨"\n\t".data ++ u,
      v ++ ("\n\txsi:schemaLocation=\"" ++
        getSchemalocString (nsSort (nsDefSet meta nss add)) ++ "\"").data, ?_⟩
    rw [show getXmlnsString (nsSort (nsDefSet meta nss add)) =
      pyJoin "\n\t" ((nsSort (nsDefSet meta nss add)).map xmlnsEntry) from rfl]
    simp only [String.data_append, ← huv]
    simp

/-- C8 (witness): the amended namespace-definition facts on a concrete
walk result and an additional mapping with one fresh and no stale URI. -/
theorem maec_c8_witness :
    getNSF [("N", ⟨[], false, "", "", ["N"], ["urn:a"]⟩)] meta0 [(1, ⟨"N", []⟩)] 2 [] 1 =
      some [⟨"urn:a", "p", none⟩] ∧
    ([⟨"urn:a", "p", none⟩] : List NS) ≠ [] ∧
    ((∀ x, (x ∈ [(⟨"urn:a", "p", none⟩ : NS)] ∨ x = meta0.xsi ∨ x = meta0.vocabs) →
        x ∈ nsDefSet meta0 [⟨"urn:a", "p", none⟩] [("urn:b", "b")]) ∧
      (∀ p ∈ [(("urn:b", "b") : String × String)],
        p.1 ∉ (nsUnionL (nsUnionL [⟨"urn:a", "p", none⟩] [meta0.xsi])
          [meta0.vocabs]).map NS.name →
        (⟨p.1, p.2, none⟩ : NS) ∈ nsDefSet meta0 [⟨"urn:a", "p", none⟩] [("urn:b", "b")]) ∧
      (∀ y ∈ nsDefSet meta0 [⟨"urn:a", "p", none⟩] [("urn:b", "b")],
        y ∈ nsUnionL (nsUnionL [⟨"urn:a", "p", none⟩] [meta0.xsi]) [meta0.vocabs] ∨
        ∃ p ∈ [(("urn:b", "b") : String × String)], y = ⟨p.1, p.2, none⟩ ∧
          p.1 ∉ (nsUnionL (nsUnionL [⟨"urn:a", "p", none⟩] [meta0.xsi])
            [meta0.vocabs]).map NS.name) ∧
      (∀ x ∈ nsDefSet meta0 [⟨"urn:a", "p", none⟩] [("urn:b", "b")],
        (xmlnsEntry x).data <:+:
          (nsDefString meta0 [⟨"urn:a", "p", none⟩] [("urn:b", "b")]).data)) :=
  ⟨rfl, by simp,
    maec_c8_nsdef_amended [("N", ⟨[], false, "", "", ["N"], ["urn:a"]⟩)] meta0
      [(1, ⟨"N", []⟩)] 2 1 [⟨"urn:a", "p", none⟩] [("urn:b", "b")] rfl (by simp)⟩

/-- C10: `EntityList` inherits `Entity.__eq__`, which never inspects
`_inner`: two distinct instances (different object ids) of an
`EntityList` subclass with no `TypedField` descriptors compare unequal
even with identical element sequences. -/
theorem maec_c10_entitylist_eq (t : CTable) (n : Nat) (c : String) (o₁ o₂ : Nat)
    (f₁ f₂ : List (String × Value)) (inner : List Value)
    (hel : isEListCls t c = true) (hvars : getVars t c = []) (ho : o₁ ≠ o₂) :
    pyEqF t (n + 1) (.vent c o₁ f₁ inner) (.vent c o₂ f₂ inner) = some false := by
  simp only [pyEqF]
  rw [if_neg ho, if_neg (not_not_intro rfl), hvars]
  rfl

/-- Controlled step of the namespace walk at a resolvable object. -/
theorem getNSF_step (t : CTable) (meta : Meta) (h : Heap) (n : Nat) (touched : List Nat)
    (oid : Nat) (o : HObj) (cl : EClass) (ho : lookupH h oid = some o)
    (hcl : lookupC t o.cls = some cl) :
    getNSF t meta h (n + 1) touched oid =
      getNSChildrenF t meta h n (oid :: touched) o.children
        (nsUnionL [] (cl.nsDecls.map meta.lookupNamespace)) := by
  have h0 : getNSF t meta h (n + 1) touched oid =
      (match lookupH h oid with
       | none => none
       | some o2 =>
         match lookupC t o2.cls with
         | none => none
         | some cl2 =>
           getNSChildrenF t meta h n (oid :: touched) o2.children
             (nsUnionL [] (cl2.nsDecls.map meta.lookupNamespace))) := rfl
  rw [h0]
  simp only [ho, hcl]

/-- The child loop on an empty list yields the accumulator. -/
theorem getNSChildrenF_nil (t : CTable) (meta : Meta) (h : Heap) (n : Nat)
    (touched : List Nat) (acc : List NS) :
    getNSChildrenF t meta h (n + 1) touched [] acc = some acc := rfl

/-- The child loop skips an already marked child. -/
theorem getNSChildrenF_skip (t : CTable) (meta : Meta) (h : Heap) (n : Nat)
    (touched : List Nat) (c : Nat) (cs : List Nat) (acc : List NS) (hmem : c ∈ touched) :
    getNSChildrenF t meta h (n + 1) touched (c :: cs) acc =
      getNSChildrenF t meta h n touched cs acc := by
  have h0 : getNSChildrenF t meta h (n + 1) touched (c :: cs) acc =
      (if c ∈ touched then getNSChildrenF t meta h n touched cs acc
       else do
        let s ← getNSF t meta h n touched c
        getNSChildrenF t meta h n touched cs (nsUnionL acc s)) := rfl
  rw [h0, if_pos hmem]

/-- The child loop recurses into an unmarked child and unions its result. -/
theorem getNSChildrenF_go (t : CTable) (meta : Meta) (h : Heap) (n : Nat)
    (touched : List Nat) (c : Nat) (cs : List Nat) (acc : List NS) (hmem : c ∉ touched)
    (s : List NS) (hs : getNSF t meta h n touched c = some s) :
    getNSChildrenF t meta h (n + 1) touched (c :: cs) acc =
      getNSChildrenF t meta h n touched cs (nsUnionL acc s) := by
  have h0 : getNSChildrenF t meta h (n + 1) touched (c :: cs) acc =
      (if c ∈ touched then getNSChildrenF t meta h n touched cs acc
       else do
        let s ← getNSF t meta h n touched c
        getNSChildrenF t meta h n touched cs (nsUnionL acc s)) := rfl
  rw [h0, if_neg hmem, hs]
  rfl

/-- C4: on the two-object cycle `A -> B -> A` the namespace walk terminates
(the result is the same at every sufficient recursion budget — `B` skips
the marked `A` instead of recursing) and collects exactly the deduplicated
union of the namespaces declared along the two classes' mros, resolved
through the registry. -/
theorem maec_c4_namespace_cycle (t : CTable) (meta : Meta) (cA cB : String)
    (clA clB : EClass) (hA : lookupC t cA = some clA) (hB : lookupC t cB = some clB) :
    ∃ s, (∀ m, getNSF t meta [(1, ⟨cA, [2]⟩), (2, ⟨cB, [1]⟩)] (m + 5) [] 1 = some s) ∧
      s.Nodup ∧
      ∀ x, x ∈ s ↔ (x ∈ clA.nsDecls.map meta.lookupNamespace ∨
        x ∈ clB.nsDecls.map meta.lookupNamespace) := by
  refine ⟨nsUnionL (nsUnionL [] (clA.nsDecls.map meta.lookupNamespace))
    (nsUnionL [] (clB.nsDecls.map meta.lookupNamespace)), ?_, ?_, ?_⟩
  · intro m
    rw [getNSF_step t meta [(1, ⟨cA, [2]⟩), (2, ⟨cB, [1]⟩)] (m + 4) [] 1 ⟨cA, [2]⟩ clA rfl hA]
    have hwalkB : getNSF t meta [(1, ⟨cA, [2]⟩), (2, ⟨cB, [1]⟩)] (m + 3) [1] 2 =
        some (nsUnionL [] (clB.nsDecls.map meta.lookupNamespace)) := by
      rw [getNSF_step t meta [(1, ⟨cA, [2]⟩), (2, ⟨cB, [1]⟩)] (m + 2) [1] 2 ⟨cB, [1]⟩ clB rfl hB]
      rw [getNSChildrenF_skip t meta [(1, ⟨cA, [2]⟩), (2, ⟨cB, [1]⟩)] (m + 1) [2, 1] 1 [] _ (by simp)]
      exact getNSChildrenF_nil t meta [(1, ⟨cA, [2]⟩), (2, ⟨cB, [1]⟩)] m [2, 1] _
    rw [getNSChildrenF_go t meta [(1, ⟨cA, [2]⟩), (2, ⟨cB, [1]⟩)] (m + 3) [1] 2 [] _ (by simp) _ hwalkB]
    exact getNSChildrenF_nil t meta [(1, ⟨cA, [2]⟩), (2, ⟨cB, [1]⟩)] (m + 2) [1] _
  · exact nodup_nsUnionL _ _ (nodup_nsUnionL _ _ List.nodup_nil)
  · intro x
    rw [mem_nsUnionL, mem_nsUnionL, mem_nsUnionL]
    simp

/-- C4 (witness): the cycle walk on a concrete two-class table. -/
theorem maec_c4_witness :
    lookupC [("A", ⟨[], false, "", "", ["A"], ["urn:a"]⟩),
             ("B", ⟨[], false, "", "", ["B"], ["urn:b"]⟩)] "A" =
      some ⟨[], false, "", "", ["A"], ["urn:a"]⟩ ∧
    (∃ s, (∀ m, getNSF [("A", ⟨[], false, "", "", ["A"], ["urn:a"]⟩),
              ("B", ⟨[], false, "", "", ["B"], ["urn:b"]⟩)] meta0
            [(1, ⟨"A", [2]⟩), (2, ⟨"B", [1]⟩)] (m + 5) [] 1 = some s) ∧
      s.Nodup ∧
      ∀ x, x ∈ s ↔ (x ∈ List.map meta0.lookupNamespace ["urn:a"] ∨
        x ∈ List.map meta0.lookupNamespace ["urn:b"])) :=
  ⟨rfl, maec_c4_namespace_cycle
    [("A", ⟨[], false, "", "", ["A"], ["urn:a"]⟩),
     ("B", ⟨[], false, "", "", ["B"], ["urn:b"]⟩)] meta0 "A" "B"
    ⟨[], false, "", "", ["A"], ["urn:a"]⟩ ⟨[], false, "", "", ["B"], ["urn:b"]⟩ rfl rfl⟩

/-- C10 (witness): two structurally identical `L` instances are unequal. -/
theorem maec_c10_witness :
    isEListCls tblLT "L" = true ∧ getVars tblLT "L" = [] ∧ (1 : Nat) ≠ 2 ∧
    pyEqF tblLT 3 (.vent "L" 1 [] [.vent "T" 5 [] []])
      (.vent "L" 2 [] [.vent "T" 5 [] []]) = some false :=
  ⟨rfl, rfl, by decide,
    maec_c10_entitylist_eq tblLT 2 "L" 1 2 [] [] [.vent "T" 5 [] []] rfl rfl (by decide)⟩

end MaecSpec
